import Mathlib

/-!
Verification development for the JSON-Editor repository.

The core under study is `src/schema_manager.py` (schema inference, schema
mutation, JSON→DataFrame conversion, DataFrame→JSON parsing) together with
the module-level handlers of `app.py` (schema creation/copy, schema-column
sync).  Python/pandas values are shallowly embedded: JSON values become a
closed inductive `Value`; a pandas DataFrame becomes a `Table` of named
columns and rows of optional cells (`none` models a missing value / NaN);
Python exceptions become `Option`/error results; Python string builtins
(`str.strip`, `str.split`, `str.join`, `str.lower`, `float(...)`) are
modelled as executable functions over the character lists of Lean strings.
-/

set_option linter.unusedVariables false

namespace JsonEditor

/-- A JSON value as handled by the Python code: string, int, float
(modelled as a rational, which covers every decimal the program ever
parses or stores), bool, list, null, or nested object.  `Bool` is a
separate constructor, mirroring that `guess_field_type` tests
`isinstance(value, bool)` before the numeric case. -/
inductive Value where
  | vStr (s : String)
  | vInt (n : Int)
  | vFloat (q : ℚ)
  | vBool (b : Bool)
  | vList (xs : List Value)
  | vNull
  | vObj (kvs : List (String × Value))
  deriving Repr

/-- A JSON record: an ordered mapping from keys to values (Python dicts
preserve insertion order). -/
abbrev Record := List (String × Value)

/-- A DataFrame cell: `none` models a missing entry / NaN. -/
abbrev Cell := Option Value

/-- A pandas DataFrame: named columns and rows of cells; each row is
positionally aligned with `cols`. -/
structure Table where
  cols : List String
  rows : List (List Cell)
  deriving Repr

/-- First-match association lookup, the semantics of `d[k]` / `k in d`
for the Python dicts built by the code (their keys are unique, so
first match and last match coincide). -/
def lookupA {α : Type} (k : String) : List (String × α) → Option α
  | [] => none
  | (k', v) :: rest => if k' = k then some v else lookupA k rest

/-- Index of the first element satisfying `p`. -/
def findIdxA {α : Type} (p : α → Bool) : List α → Option Nat
  | [] => none
  | x :: xs => if p x then some 0 else (findIdxA p xs).map (· + 1)

/-- The whitespace test of Python's `str.strip()` (restricted to the ASCII
whitespace the program can meet). -/
def isWs (c : Char) : Bool :=
  c = ' ' || c = '\t' || c = '\n' || c = '\r'

/-- `str.strip()` on a character list: drop whitespace from both ends. -/
def trimChars (cs : List Char) : List Char :=
  ((cs.dropWhile isWs).reverse.dropWhile isWs).reverse

/-- Model of Python `str.strip()`. -/
def pyStrip (s : String) : String := ⟨trimChars s.toList⟩

/-- `s.strip() == ''`: the blankness test used for row filtering and for
the per-cell missing/blank test. -/
def strBlank (s : String) : Bool := (trimChars s.toList).isEmpty

/-- `str.split(",")` on a character list: split at every comma. -/
def splitComma : List Char → List (List Char)
  | [] => [[]]
  | c :: rest =>
    if c = ',' then [] :: splitComma rest
    else
      match splitComma rest with
      | [] => [[c]]
      | p :: ps => (c :: p) :: ps

/-- `sep.join` on character lists. -/
def joinChars (sep : List Char) : List (List Char) → List Char
  | [] => []
  | [x] => x
  | x :: xs => x ++ sep ++ joinChars sep xs

/-- Decimal digits of a natural number (fuelled structural recursion;
`fuel = n + 1` always suffices). -/
def natChars : Nat → Nat → List Char
  | 0, _ => []
  | fuel + 1, n =>
    if n < 10 then [Char.ofNat (48 + n)]
    else natChars fuel (n / 10) ++ [Char.ofNat (48 + n % 10)]

/-- Model of Python `str(int)`: decimal digits, `-`-prefixed when negative. -/
def intStr (n : Int) : String :=
  if n < 0 then ⟨'-' :: natChars (n.toNat + (-n).toNat + 1) (-n).toNat⟩
  else ⟨natChars (n + 1).toNat n.toNat⟩

/-- Model of Python `str(float)` restricted to what the program relies on:
whole floats print as `n.0`; other rationals are rendered as a
numerator/denominator pair.  The code only ever inspects such strings
through `strip`-blankness tests, for which any non-blank rendering is
faithful. -/
def floatStr (q : ℚ) : String :=
  if q.den = 1 then intStr q.num ++ ".0"
  else intStr q.num ++ "/" ++ intStr q.den

/-- The single-quote character, used by Python `repr` of strings. -/
def sq : String := ⟨[Char.ofNat 39]⟩

mutual

/-- Python `repr` of a value, as used by `str` on the *elements* of a
list or dict. -/
def pyRepr : Value → String
  | .vStr s => sq ++ s ++ sq
  | .vInt n => intStr n
  | .vFloat q => floatStr q
  | .vBool b => if b then "True" else "False"
  | .vNull => "None"
  | .vList xs => "[" ++ pyReprList xs ++ "]"
  | .vObj kvs => "\x7b" ++ pyReprObj kvs ++ "\x7d"

/-- `", "`-separated `repr`s of list elements. -/
def pyReprList : List Value → String
  | [] => ""
  | [x] => pyRepr x
  | x :: xs => pyRepr x ++ ", " ++ pyReprList xs

/-- `repr` of the entries of a dict. -/
def pyReprObj : List (String × Value) → String
  | [] => ""
  | [(k, v)] => sq ++ k ++ sq ++ ": " ++ pyRepr v
  | (k, v) :: kvs => sq ++ k ++ sq ++ ": " ++ pyRepr v ++ ", " ++ pyReprObj kvs

end

/-- Model of Python `str(value)`: identity on strings, `repr`-based
rendering elsewhere. -/
def pyStr : Value → String
  | .vStr s => s
  | .vInt n => intStr n
  | .vFloat q => floatStr q
  | .vBool b => if b then "True" else "False"
  | .vNull => "None"
  | .vList xs => "[" ++ pyReprList xs ++ "]"
  | .vObj kvs => "\x7b" ++ pyReprObj kvs ++ "\x7d"

/-- Value of a digit run (most significant first). -/
def digitsVal (cs : List Char) : Nat :=
  cs.foldl (fun a c => a * 10 + (c.toNat - 48)) 0

/-- Model of Python `float(str)`: optional surrounding whitespace, an
optional sign, a decimal mantissa with at least one digit, and an optional
exponent part.  Returns `none` on anything else (`ValueError` in Python;
the rare `inf`/`nan`/underscore spellings accepted by Python are outside
the program's inputs and are not modelled). -/
def pyFloatStr (s : String) : Option ℚ :=
  let cs := trimChars s.toList
  let p1 : ℚ × List Char :=
    match cs with
    | '+' :: rest => (1, rest)
    | '-' :: rest => (-1, rest)
    | _ => (1, cs)
  let sign := p1.1
  let ip := p1.2.takeWhile Char.isDigit
  let rest1 := p1.2.dropWhile Char.isDigit
  let p2 : List Char × List Char :=
    match rest1 with
    | '.' :: r => (r.takeWhile Char.isDigit, r.dropWhile Char.isDigit)
    | _ => ([], rest1)
  let fp := p2.1
  let rest2 := p2.2
  if ip.isEmpty && fp.isEmpty then none
  else
    let mant : ℚ := (digitsVal ip : ℚ) + (digitsVal fp : ℚ) / ((10 : ℚ) ^ fp.length)
    match rest2 with
    | [] => some (sign * mant)
    | 'e' :: r =>
      match pyFloatExp r with
      | some e => some (sign * mant * e)
      | none => none
    | 'E' :: r =>
      match pyFloatExp r with
      | some e => some (sign * mant * e)
      | none => none
    | _ => none
where
  /-- Exponent part after `e`/`E`: optional sign and a nonempty digit run. -/
  pyFloatExp (r : List Char) : Option ℚ :=
    let p : Bool × List Char :=
      match r with
      | '+' :: r' => (true, r')
      | '-' :: r' => (false, r')
      | _ => (true, r)
    let ed := p.2.takeWhile Char.isDigit
    let rest := p.2.dropWhile Char.isDigit
    if ed.isEmpty || !rest.isEmpty then none
    else some (if p.1 then (10 : ℚ) ^ digitsVal ed else ((10 : ℚ) ^ digitsVal ed)⁻¹)

/-- Model of Python `float(value)` as applied by `parse_dataframe`:
numbers pass through, bools coerce to 0/1 (Python `bool` is an `int`),
strings are parsed, everything else raises (`none`). -/
def pyFloat : Value → Option ℚ
  | .vInt n => some n
  | .vFloat q => some q
  | .vBool b => some (if b then 1 else 0)
  | .vStr s => pyFloatStr s
  | _ => none

/-- Model of Python `int(float)`: truncation toward zero. -/
def pyTruncQ (q : ℚ) : Int := if q < 0 then ⌈q⌉ else ⌊q⌋

/-- Model of Python `str.lower` (ASCII). -/
def pyLower (s : String) : String := ⟨s.toList.map Char.toLower⟩

/-! ## Schema data model -/

/-- One field dictionary as built by `schema_manager.py`: keys `name`,
`type`, `required`, and an *optional* `widget` key (`none` models the key
being absent from the dict, as in the app's initial `Default` schema and
in `update_schema` when no widget is given). -/
structure FieldDict where
  name : String
  type : String
  required : Bool
  widget : Option String
  deriving Repr, DecidableEq

/-- A schema: an ordered list of field dictionaries. -/
abbrev Schema := List FieldDict

/-! ## `schema_manager.guess_field_type` and
`schema_manager.generate_schema_from_json` -/

/-- `guess_field_type` (schema_manager.py lines 6-15): `isinstance(bool)`
first, then int/float, then list, and `"string"` as the fallback covering
strings, null and nested objects. -/
def guess_field_type : Value → String
  | .vBool _ => "boolean"
  | .vInt _ => "number"
  | .vFloat _ => "number"
  | .vList _ => "list"
  | _ => "string"

/-- The loop body of `generate_schema_from_json` over the sample object's
entries: one field per key in key order, `required = False`, and
`widget = "textarea"` exactly when the guessed type is `"string"`, the
value is a `str`, and its length exceeds 50. -/
def inferFields (kvs : List (String × Value)) : Schema :=
  kvs.map fun kv =>
    let ft := guess_field_type kv.2
    let widget : String :=
      if ft = "string" then
        match kv.2 with
        | .vStr s => if s.length > 50 then "textarea" else ""
        | _ => ""
      else ""
    { name := kv.1, type := ft, required := false, widget := some widget }

/-- `generate_schema_from_json` (schema_manager.py lines 17-44).  A dict
is used directly; a nonempty list contributes its first element, on which
`.items()` is called — raising `AttributeError` (modelled by `none`) when
that element is not a dict; an empty list or any other value yields the
empty schema. -/
def generate_schema_from_json : Value → Option Schema
  | .vObj kvs => some (inferFields kvs)
  | .vList (first :: _) =>
    match first with
    | .vObj kvs => some (inferFields kvs)
    | _ => none
  | .vList [] => some []
  | _ => some []

/-! ## `schema_manager.convert_for_dataframe` and the DataFrame
construction / column sync done by `app.py` -/

/-- `", ".join(str(v) for v in value)`. -/
def joinCS (xs : List Value) : String :=
  ⟨joinChars [',', ' '] (xs.map fun v => (pyStr v).toList)⟩

/-- `convert_for_dataframe` (schema_manager.py lines 66-83): each record
keeps its own keys; a value whose key the schema types as `"list"` and
which is itself a list is replaced by the comma-joined string of its
stringified elements; everything else passes through. -/
def convert_for_dataframe (data : List Record) (schema : Schema) : List Record :=
  let field_types := schema.map fun f => (f.name, f.type)
  data.map fun item =>
    item.map fun kv =>
      if lookupA kv.1 field_types = some "list" then
        match kv.2 with
        | .vList xs => (kv.1, .vStr (joinCS xs))
        | _ => kv
      else kv

/-- Column list of `pd.DataFrame(list-of-dicts)`: the union of the
records' keys in order of first appearance. -/
def dfColumns (data : List Record) : List String :=
  data.foldl (fun acc item =>
    item.foldl (fun acc kv => if kv.1 ∈ acc then acc else acc ++ [kv.1]) acc) []

/-- `pd.DataFrame(list-of-dicts)`: one row per record, aligned with the
union columns; a key a record lacks yields a missing cell (NaN). -/
def mkDataFrame (data : List Record) : Table :=
  let cols := dfColumns data
  { cols := cols, rows := data.map fun item => cols.map fun c => lookupA c item }

/-- The schema-column sync of `app.py` (lines 157-168): for each schema
field name in order, if it is not yet a column, append it as a new column
whose every cell is the empty string. -/
def syncColumns (t : Table) (schema : Schema) : Table :=
  schema.foldl (fun t f =>
    if f.name ∈ t.cols then t
    else { cols := t.cols ++ [f.name],
           rows := t.rows.map fun row => row ++ [some (.vStr "")] }) t

/-- The spec's `toTable`: project records through
`convert_for_dataframe`, build the DataFrame, and apply the app's
schema-column sync. -/
def toTable (records : List Record) (schema : Schema) : Table :=
  syncColumns (mkDataFrame (convert_for_dataframe records schema)) schema

/-! ## `schema_manager.parse_dataframe` -/

/-- `pd.isna(cell)`: true for a missing cell and for a stored Python
`None`. -/
def cellIsNa : Cell → Bool
  | none => true
  | some .vNull => true
  | some _ => false

/-- `str(cell)` as seen through `row.astype(str)` / `str(val)`: a missing
cell (NaN) prints as `"nan"`; a stored value prints via `str`. -/
def cellStr : Cell → String
  | none => "nan"
  | some v => pyStr v

/-- `row.get(name, "")` on a row aligned with `cols`: the cell at the
column's position, or the empty string when `name` is not a column. -/
def rowGet (cols : List String) (row : List Cell) (name : String) : Cell :=
  match findIdxA (· = name) cols with
  | some i => row.getD i none
  | none => some (.vStr "")

/-- The row-skipping test of `parse_dataframe` (lines 89-93):
`row.isnull().all() or (row.astype(str).str.strip() == '').all()`. -/
def rowBlank (row : List Cell) : Bool :=
  row.all cellIsNa || row.all fun c => strBlank (cellStr c)

/-- The defaults assigned when a cell is missing or blank, per declared
field type. -/
def defaultFor (ftype : String) : Value :=
  if ftype = "list" then .vList []
  else if ftype = "number" then .vInt 0
  else if ftype = "boolean" then .vBool false
  else .vStr ""

/-- `[v.strip() for v in str(val).split(",") if v.strip()]`: split on
commas, strip each piece, keep the non-blank pieces. -/
def splitStrip (s : String) : List Value :=
  (((splitComma s.toList).map trimChars).filter fun cs => ¬ cs.isEmpty).map
    fun cs => Value.vStr ⟨cs⟩

/-- The truthy set `['true', 'yes', '1', 'y']` of the boolean branch. -/
def truthy (s : String) : Bool :=
  s = "true" || s = "yes" || s = "1" || s = "y"

/-- The per-field body of `parse_dataframe` (lines 96-128): missing/blank
cells take the type's default; otherwise lists are split from the cell's
string form, numbers are parsed as floats (narrowed to int when whole,
`0` on parse failure), booleans pass through or are compared against the
truthy set, and strings are stringified. -/
def coerceField (ftype : String) (val : Cell) : Value :=
  if cellIsNa val || strBlank (cellStr val) then defaultFor ftype
  else
    match val with
    | none => defaultFor ftype
    | some v =>
      if ftype = "list" then .vList (splitStrip (pyStr v))
      else if ftype = "number" then
        match pyFloat v with
        | some q => if q = (pyTruncQ q : ℚ) then .vInt (pyTruncQ q) else .vFloat q
        | none => .vInt 0
      else if ftype = "boolean" then
        match v with
        | .vBool b => .vBool b
        | _ => .vBool (truthy (pyLower (pyStr v)))
      else .vStr (pyStr v)

/-- `parse_dataframe` (schema_manager.py lines 85-130): drop the blank
rows, then build one record per remaining row with exactly the schema's
fields in schema order. -/
def parse_dataframe (df : Table) (schema : Schema) : List Record :=
  (df.rows.filter fun row => ¬ rowBlank row).map fun row =>
    schema.map fun f => (f.name, coerceField f.type (rowGet df.cols row f.name))

/-- The spec's `toRecords` is exactly `parse_dataframe`. -/
def toRecords (df : Table) (schema : Schema) : List Record :=
  parse_dataframe df schema

/-! ## The SchemaStore with Python aliasing semantics

`app.py` copies a schema with `list.copy()`, a *shallow* copy: the two
name entries hold distinct list objects whose elements reference the same
field dicts.  To settle the independence claim faithfully we model the
field dicts through a heap: each schema name maps to a list of heap
addresses, `list.copy()` duplicates the address list, and every operation
that builds a field dict allocates a fresh address.  No operation of the
code ever mutates a field dict in place, and no two names ever share a
list object, so the store itself has value semantics. -/

/-- The session state: the heap of allocated field dicts (addresses are
list positions; allocation appends) and the `schemas` mapping from name
to a list of addresses. -/
structure PyState where
  heap : List FieldDict
  store : List (String × List Nat)
  deriving Repr, DecidableEq

/-- Read a field dict from the heap (well-formed states never index out
of range). -/
def derefField (heap : List FieldDict) (a : Nat) : FieldDict :=
  heap.getD a ⟨"", "", false, none⟩

/-- The field-dict sequence a schema name denotes: its address list,
dereferenced. -/
def derefSchema (st : PyState) (name : String) : List FieldDict :=
  match lookupA name st.store with
  | some addrs => addrs.map (derefField st.heap)
  | none => []

/-- Every address stored for some schema points into the heap. -/
def WFState (st : PyState) : Prop :=
  ∀ e ∈ st.store, ∀ a ∈ e.2, a < st.heap.length

instance : DecidablePred WFState := fun st =>
  inferInstanceAs (Decidable (∀ e ∈ st.store, ∀ a ∈ e.2, a < st.heap.length))

/-- The typed failures of the store operations: the duplicate-name error
reported by the Create Schema handler, and Python's `KeyError` on a
missing schema name. -/
inductive PyError where
  | duplicateName
  | keyError
  deriving Repr, DecidableEq

/-- The two creation modes of the Create Schema handler. -/
inductive CreateMode where
  | empty
  | copyOf (src : String)

/-- Replace the address list stored under `name` (the names in a store
are unique, so updating every matching entry equals updating the one). -/
def storeSet (store : List (String × List Nat)) (name : String)
    (addrs : List Nat) : List (String × List Nat) :=
  store.map fun e => if e.1 = name then (name, addrs) else e

/-- The Create Schema handler of `app.py` (lines 44-55): on an existing
name, report the duplicate and change nothing; otherwise bind the new
name to `[]` or to a *shallow copy* (`list.copy()`, i.e. the same address
list) of the source schema. -/
def createSchema (st : PyState) (newName : String) (mode : CreateMode) :
    PyState × Option PyError :=
  if (lookupA newName st.store).isSome then (st, some .duplicateName)
  else
    match mode with
    | .empty => ({ st with store := st.store ++ [(newName, [])] }, none)
    | .copyOf src =>
      match lookupA src st.store with
      | some addrs => ({ st with store := st.store ++ [(newName, addrs)] }, none)
      | none => (st, some .keyError)

/-- The field dict built by `update_schema`: the `widget` key is present
only when a non-`None`, non-empty widget string was passed
(`if widget and widget != ""`). -/
def mkFieldDict (fname ftype : String) (required : Bool)
    (widget : Option String) : FieldDict :=
  { name := fname, type := ftype, required := required,
    widget :=
      match widget with
      | some w => if w = "" then none else some w
      | none => none }

/-- `update_schema` (schema_manager.py lines 46-60): allocate the new
field dict; replace the first same-named slot of the schema's list with
its address, or append the address when no slot matches. -/
def update_schema (st : PyState) (sname fname ftype : String)
    (required : Bool) (widget : Option String) : PyState × Option PyError :=
  match lookupA sname st.store with
  | none => (st, some .keyError)
  | some addrs =>
    let field := mkFieldDict fname ftype required widget
    let a := st.heap.length
    let addrs' :=
      match findIdxA (fun ad => (derefField st.heap ad).name = fname) addrs with
      | some i => addrs.set i a
      | none => addrs ++ [a]
    ({ heap := st.heap ++ [field], store := storeSet st.store sname addrs' }, none)

/-- `delete_field` (schema_manager.py lines 62-64): rebind the name to
the filtered address list. -/
def delete_field (st : PyState) (sname fname : String) :
    PyState × Option PyError :=
  match lookupA sname st.store with
  | none => (st, some .keyError)
  | some addrs =>
    ({ st with
       store := storeSet st.store sname
         (addrs.filter fun ad => ¬ (derefField st.heap ad).name = fname) }, none)

/-- A field-level mutation: the two operations the sidebar offers. -/
inductive MutOp where
  | upsert (sname fname ftype : String) (required : Bool) (widget : Option String)
  | delField (sname fname : String)

/-- The schema name a mutation targets. -/
def MutOp.target : MutOp → String
  | .upsert sname _ _ _ _ => sname
  | .delField sname _ => sname

/-- Run one mutation, keeping the state unchanged on a `KeyError`. -/
def applyMut (st : PyState) (op : MutOp) : PyState :=
  match op with
  | .upsert sname fname ftype req w => (update_schema st sname fname ftype req w).1
  | .delField sname fname => (delete_field st sname fname).1

/-- The initial session state of `app.py` (lines 11-17): one `Default`
schema with the two seed fields (whose dicts carry no `widget` key). -/
def initialState : PyState :=
  { heap := [⟨"name", "string", true, none⟩, ⟨"value", "string", false, none⟩],
    store := [("Default", [0, 1])] }

/-! ## Helper lemmas: whitespace, trimming and blankness -/

theorem dropWhile_eq_self_of_all {α : Type} (p : α → Bool) (l : List α)
    (h : ∀ c ∈ l, p c = false) : l.dropWhile p = l := by
  cases l with
  | nil => rfl
  | cons c cs => simp [List.dropWhile_cons, h c (by simp)]

theorem trimChars_of_no_ws (cs : List Char) (h : ∀ c ∈ cs, isWs c = false) :
    trimChars cs = cs := by
  unfold trimChars
  rw [dropWhile_eq_self_of_all _ _ h,
    dropWhile_eq_self_of_all _ _ (fun c hc => h c (List.mem_reverse.mp hc)),
    List.reverse_reverse]

theorem trimChars_ne_nil (cs : List Char) (c₀ : Char) (h₀ : c₀ ∈ cs)
    (hw : isWs c₀ = false) : trimChars cs ≠ [] := by
  intro h
  unfold trimChars at h
  rw [List.reverse_eq_nil_iff, List.dropWhile_eq_nil_iff] at h
  have h₁ : c₀ ∈ cs.dropWhile isWs := by
    have hsplit := List.takeWhile_append_dropWhile (p := isWs) (l := cs)
    rw [← hsplit] at h₀
    rcases List.mem_append.mp h₀ with h' | h'
    · have := List.mem_takeWhile_imp h'
      rw [hw] at this
      exact absurd this (by simp)
    · exact h'
  have := h c₀ (List.mem_reverse.mpr h₁)
  rw [hw] at this
  exact absurd this (by simp)

theorem trimChars_nil_of_all_ws (cs : List Char) (h : ∀ c ∈ cs, isWs c = true) :
    trimChars cs = [] := by
  unfold trimChars
  rw [List.dropWhile_eq_nil_iff.mpr h]
  rfl

theorem strBlank_eq_false_of_mem (s : String) (c₀ : Char) (h₀ : c₀ ∈ s.toList)
    (hw : isWs c₀ = false) : strBlank s = false := by
  unfold strBlank
  cases hcc : trimChars s.toList with
  | nil => exact absurd hcc (trimChars_ne_nil _ c₀ h₀ hw)
  | cons a l => rfl

theorem exists_nonws_of_strBlank_eq_false (s : String) (h : strBlank s = false) :
    ∃ c ∈ s.toList, isWs c = false := by
  by_contra hc
  push_neg at hc
  have hall : ∀ c ∈ s.toList, isWs c = true := by
    intro c hcm
    have := hc c hcm
    cases hb : isWs c with
    | false => exact absurd hb this
    | true => rfl
  rw [strBlank, trimChars_nil_of_all_ws _ hall] at h
  exact absurd h (by simp)

theorem trimChars_cons_ws (c : Char) (cs : List Char) (h : isWs c = true) :
    trimChars (c :: cs) = trimChars cs := by
  unfold trimChars
  rw [List.dropWhile_cons, h]
  rfl

/-! ## Helper lemmas: decimal digits and numeric string renderings -/

theorem digitChar_isDigit : ∀ d, d < 10 → (Char.ofNat (48 + d)).isDigit = true := by
  decide

theorem isWs_of_isDigit {c : Char} (h : c.isDigit = true) : isWs c = false := by
  cases hw : isWs c with
  | false => rfl
  | true =>
    exfalso
    have : ((c = ' ' ∨ c = '\t') ∨ c = '\n') ∨ c = '\r' := by simpa [isWs] using hw
    rcases this with ((rfl | rfl) | rfl) | rfl <;> revert h <;> decide

theorem natChars_spec : ∀ fuel n, n < fuel →
    natChars fuel n ≠ [] ∧ ∀ c ∈ natChars fuel n, c.isDigit = true := by
  intro fuel
  induction fuel with
  | zero => intro n h; omega
  | succ fuel ih =>
    intro n h
    unfold natChars
    by_cases h10 : n < 10
    · simp only [if_pos h10]
      refine ⟨by simp, ?_⟩
      intro c hc
      simp only [List.mem_singleton] at hc
      subst hc
      exact digitChar_isDigit n h10
    · simp only [if_neg h10]
      have hlt : n / 10 < n := Nat.div_lt_self (by omega) (by omega)
      obtain ⟨hne, hall⟩ := ih (n / 10) (by omega)
      refine ⟨by simp, ?_⟩
      intro c hc
      rcases List.mem_append.mp hc with hc | hc
      · exact hall c hc
      · simp only [List.mem_singleton] at hc
        subst hc
        exact digitChar_isDigit _ (Nat.mod_lt _ (by omega))

theorem strBlank_intStr (n : Int) : strBlank (intStr n) = false := by
  unfold intStr
  by_cases h : n < 0
  · simp only [if_pos h]
    exact strBlank_eq_false_of_mem _ '-' (by simp) (by decide)
  · simp only [if_neg h]
    obtain ⟨hne, hall⟩ := natChars_spec ((n + 1).toNat) n.toNat (by omega)
    cases hcc : natChars ((n + 1).toNat) n.toNat with
    | nil => exact absurd hcc hne
    | cons c l =>
      exact strBlank_eq_false_of_mem ⟨c :: l⟩ c (by simp)
        (isWs_of_isDigit (hall c (by rw [hcc]; simp)))

theorem strBlank_append_left (s t : String) (h : strBlank s = false) :
    strBlank (s ++ t) = false := by
  obtain ⟨c, hc, hw⟩ := exists_nonws_of_strBlank_eq_false s h
  refine strBlank_eq_false_of_mem _ c ?_ hw
  have : (s ++ t).toList = s.toList ++ t.toList := by
    show (s ++ t).data = s.data ++ t.data
    exact String.data_append s t
  rw [this]
  exact List.mem_append.mpr (Or.inl hc)

theorem strBlank_floatStr (q : ℚ) : strBlank (floatStr q) = false := by
  unfold floatStr
  by_cases h : q.den = 1
  · simp only [if_pos h]
    exact strBlank_append_left _ _ (strBlank_intStr q.num)
  · simp only [if_neg h]
    exact strBlank_append_left _ _ (strBlank_append_left _ _ (strBlank_intStr q.num))

theorem strBlank_cellStr_vInt (n : Int) : strBlank (cellStr (some (.vInt n))) = false :=
  strBlank_intStr n

theorem strBlank_cellStr_vFloat (q : ℚ) : strBlank (cellStr (some (.vFloat q))) = false :=
  strBlank_floatStr q

theorem strBlank_cellStr_vBool (b : Bool) : strBlank (cellStr (some (.vBool b))) = false := by
  cases b <;> decide

/-! ## Helper lemmas: truncation -/

theorem pyTruncQ_intCast (n : Int) : pyTruncQ (n : ℚ) = n := by
  unfold pyTruncQ
  by_cases h : (n : ℚ) < 0
  · rw [if_pos h, Int.ceil_intCast]
  · rw [if_neg h, Int.floor_intCast]

theorem eq_trunc_iff_den_eq_one (q : ℚ) : q = (pyTruncQ q : ℚ) ↔ q.den = 1 := by
  constructor
  · intro h
    rw [h]
    exact Rat.den_intCast _
  · intro h
    have hq : (q.num : ℚ) = q := by
      rw [← Rat.den_eq_one_iff]
      exact h
    rw [← hq, pyTruncQ_intCast]

/-! ## Helper lemmas: association lookup and first-index search -/

theorem lookupA_cons {α : Type} (k k' : String) (v : α) (rest : List (String × α)) :
    lookupA k ((k', v) :: rest) = if k' = k then some v else lookupA k rest := rfl

theorem lookupA_append_some {α : Type} (k : String) (l₁ l₂ : List (String × α))
    (v : α) (h : lookupA k l₁ = some v) : lookupA k (l₁ ++ l₂) = some v := by
  induction l₁ with
  | nil => simp [lookupA] at h
  | cons e rest ih =>
    obtain ⟨k', v'⟩ := e
    rw [lookupA_cons] at h
    rw [List.cons_append, lookupA_cons]
    by_cases he : k' = k
    · simpa [he] using h
    · rw [if_neg he] at h ⊢
      exact ih h

theorem lookupA_append_none {α : Type} (k : String) (l₁ l₂ : List (String × α))
    (h : lookupA k l₁ = none) : lookupA k (l₁ ++ l₂) = lookupA k l₂ := by
  induction l₁ with
  | nil => rfl
  | cons e rest ih =>
    obtain ⟨k', v'⟩ := e
    rw [lookupA_cons] at h
    rw [List.cons_append, lookupA_cons]
    by_cases he : k' = k
    · rw [if_pos he] at h; exact absurd h (by simp)
    · rw [if_neg he] at h
      rw [if_neg he]
      exact ih h

theorem lookupA_mem {α : Type} (k : String) (l : List (String × α)) (v : α)
    (h : lookupA k l = some v) : (k, v) ∈ l := by
  induction l with
  | nil => simp [lookupA] at h
  | cons e rest ih =>
    obtain ⟨k', v'⟩ := e
    rw [lookupA_cons] at h
    by_cases he : k' = k
    · rw [if_pos he] at h
      injection h with h
      subst he
      subst h
      exact List.mem_cons_self _ _
    · rw [if_neg he] at h
      exact List.mem_cons_of_mem _ (ih h)

theorem findIdxA_nil {α : Type} (p : α → Bool) : findIdxA p ([] : List α) = none := rfl

theorem findIdxA_cons {α : Type} (p : α → Bool) (x : α) (xs : List α) :
    findIdxA p (x :: xs) = if p x then some 0 else (findIdxA p xs).map (· + 1) := rfl

theorem findIdxA_lt_length {α : Type} (p : α → Bool) (l : List α) (i : Nat)
    (h : findIdxA p l = some i) : i < l.length := by
  induction l generalizing i with
  | nil => simp [findIdxA_nil] at h
  | cons x xs ih =>
    rw [findIdxA_cons] at h
    by_cases hp : p x
    · rw [if_pos hp] at h
      injection h with h
      simp only [List.length_cons]
      omega
    · rw [if_neg hp] at h
      cases hf : findIdxA p xs with
      | none => rw [hf] at h; exact Option.noConfusion h
      | some j =>
        rw [hf] at h
        simp only [Option.map_some'] at h
        injection h with h
        have := ih j hf
        simp only [List.length_cons]
        omega

theorem findIdxA_append_some {α : Type} (p : α → Bool) (l₁ l₂ : List α) (i : Nat)
    (h : findIdxA p l₁ = some i) : findIdxA p (l₁ ++ l₂) = some i := by
  induction l₁ generalizing i with
  | nil => simp [findIdxA_nil] at h
  | cons x xs ih =>
    rw [findIdxA_cons] at h
    rw [List.cons_append, findIdxA_cons]
    by_cases hp : p x
    · simpa [hp] using h
    · rw [if_neg hp] at h ⊢
      cases hf : findIdxA p xs with
      | none => rw [hf] at h; exact Option.noConfusion h
      | some j =>
        rw [hf] at h
        rw [ih j hf]
        exact h

theorem findIdxA_eq_none {α : Type} (p : α → Bool) (l : List α)
    (h : ∀ x ∈ l, p x = false) : findIdxA p l = none := by
  induction l with
  | nil => rfl
  | cons x xs ih =>
    rw [findIdxA_cons,
      if_neg (by simp [h x (by simp)]),
      ih (fun x hx => h x (List.mem_cons_of_mem _ hx))]
    rfl

theorem findIdxA_append_none {α : Type} (p : α → Bool) (l₁ l₂ : List α)
    (h : findIdxA p l₁ = none) :
    findIdxA p (l₁ ++ l₂) = (findIdxA p l₂).map (· + l₁.length) := by
  induction l₁ with
  | nil => simp [findIdxA_nil]
  | cons x xs ih =>
    rw [findIdxA_cons] at h
    by_cases hp : p x
    · rw [if_pos hp] at h; exact absurd h (by simp)
    · rw [if_neg hp] at h
      have hxs : findIdxA p xs = none := by
        cases hf : findIdxA p xs with
        | none => rfl
        | some j =>
          rw [hf, Option.map_some'] at h
          exact Option.noConfusion h
      rw [List.cons_append, findIdxA_cons, if_neg hp, ih hxs]
      cases findIdxA p l₂ with
      | none => simp
      | some j =>
        simp only [Option.map_some', List.length_cons, Option.some.injEq]
        omega

theorem findIdxA_exists_of_mem {α : Type} (p : α → Bool) (l : List α) (a : α)
    (ha : a ∈ l) (hp : p a = true) : ∃ i, findIdxA p l = some i := by
  induction l with
  | nil => simp at ha
  | cons x xs ih =>
    rw [findIdxA_cons]
    by_cases hx : p x
    · exact ⟨0, by rw [if_pos hx]⟩
    · rw [if_neg hx]
      rcases List.mem_cons.mp ha with rfl | ha'
      · exact absurd hp (by simp [hx])
      · obtain ⟨i, hi⟩ := ih ha'
        exact ⟨i + 1, by rw [hi]; rfl⟩

/-! ## Helper lemmas: comma splitting and joining -/

theorem splitComma_nil : splitComma [] = [[]] := rfl

theorem splitComma_cons (c : Char) (rest : List Char) :
    splitComma (c :: rest) =
      if c = ',' then [] :: splitComma rest
      else
        match splitComma rest with
        | [] => [[c]]
        | p :: ps => (c :: p) :: ps := rfl

theorem splitComma_ne_nil (cs : List Char) : splitComma cs ≠ [] := by
  induction cs with
  | nil => simp [splitComma_nil]
  | cons c rest ih =>
    rw [splitComma_cons]
    by_cases hc : c = ','
    · simp [hc]
    · rw [if_neg hc]
      cases hs : splitComma rest with
      | nil => simp
      | cons p ps => simp

theorem splitComma_no_comma (a : List Char) (h : ∀ c ∈ a, c ≠ ',') :
    splitComma a = [a] := by
  induction a with
  | nil => rfl
  | cons c cs ih =>
    rw [splitComma_cons, if_neg (h c (by simp)),
      ih (fun c' hc' => h c' (List.mem_cons_of_mem _ hc'))]

theorem splitComma_append (a b : List Char) (h : ∀ c ∈ a, c ≠ ',') :
    splitComma (a ++ ',' :: b) = a :: splitComma b := by
  induction a with
  | nil => simp [splitComma_cons]
  | cons c cs ih =>
    rw [List.cons_append, splitComma_cons, if_neg (h c (by simp)),
      ih (fun c' hc' => h c' (List.mem_cons_of_mem _ hc'))]

/-- Splitting a `", "`-joined list of clean pieces (nonempty, trimmed,
comma-free), trimming each part and dropping the blanks recovers exactly
the pieces. -/
theorem splitComma_join_trim (es : List (List Char))
    (h : ∀ e ∈ es, e ≠ [] ∧ trimChars e = e ∧ ∀ c ∈ e, c ≠ ',') :
    (((splitComma (joinChars [',', ' '] es)).map trimChars).filter
        fun cs => ¬ cs.isEmpty) = es := by
  induction es with
  | nil => simp [joinChars, splitComma_nil, trimChars]
  | cons e rest ih =>
    obtain ⟨hne, htrim, hcf⟩ := h e (by simp)
    cases rest with
    | nil =>
      show (((splitComma (joinChars [',', ' '] [e])).map trimChars).filter
        fun cs => ¬ cs.isEmpty) = [e]
      rw [show joinChars [',', ' '] [e] = e from rfl, splitComma_no_comma e hcf]
      simp [List.filter_cons, htrim, hne]
    | cons e' rest' =>
      have hjoin : joinChars [',', ' '] (e :: e' :: rest')
          = e ++ ',' :: ' ' :: joinChars [',', ' '] (e' :: rest') := by
        show e ++ [',', ' '] ++ joinChars [',', ' '] (e' :: rest') = _
        simp
      rw [hjoin, splitComma_append e _ hcf]
      obtain ⟨p, ps, hpps⟩ :=
        List.exists_cons_of_ne_nil (splitComma_ne_nil (joinChars [',', ' '] (e' :: rest')))
      have hsp : splitComma (' ' :: joinChars [',', ' '] (e' :: rest'))
          = (' ' :: p) :: ps := by
        rw [splitComma_cons, if_neg (by decide), hpps]
      rw [hsp]
      have ih' := ih (fun x hx => h x (List.mem_cons_of_mem _ hx))
      rw [hpps, List.map_cons] at ih'
      rw [List.map_cons, List.map_cons, htrim, trimChars_cons_ws ' ' p (by decide),
        List.filter_cons, if_pos (by simp [hne]), ih']

/-! ## Helper lemmas: the schema store -/

theorem lookupA_storeSet_self (store : List (String × List Nat)) (name : String)
    (addrs old : List Nat) (h : lookupA name store = some old) :
    lookupA name (storeSet store name addrs) = some addrs := by
  induction store with
  | nil => simp [lookupA] at h
  | cons e rest ih =>
    obtain ⟨k', v'⟩ := e
    rw [lookupA_cons] at h
    show lookupA name ((if k' = name then (name, addrs) else (k', v')) :: storeSet rest name addrs)
      = some addrs
    by_cases he : k' = name
    · rw [if_pos he, lookupA_cons, if_pos rfl]
    · rw [if_neg he, lookupA_cons, if_neg he]
      rw [if_neg he] at h
      exact ih h

theorem lookupA_storeSet_ne (store : List (String × List Nat)) (name m : String)
    (addrs : List Nat) (hm : m ≠ name) :
    lookupA m (storeSet store name addrs) = lookupA m store := by
  induction store with
  | nil => rfl
  | cons e rest ih =>
    obtain ⟨k', v'⟩ := e
    show lookupA m ((if k' = name then (name, addrs) else (k', v')) :: storeSet rest name addrs)
      = lookupA m ((k', v') :: rest)
    by_cases he : k' = name
    · rw [if_pos he, lookupA_cons, if_neg (fun hh => hm hh.symm), ih,
        lookupA_cons, if_neg (fun hh => hm (he ▸ hh).symm)]
    · rw [if_neg he, lookupA_cons, lookupA_cons, ih]

theorem mem_of_mem_storeSet (store : List (String × List Nat)) (name : String)
    (addrs : List Nat) (e : String × List Nat) (h : e ∈ storeSet store name addrs) :
    e ∈ store ∨ e.2 = addrs := by
  unfold storeSet at h
  obtain ⟨e₀, he₀, heq⟩ := List.mem_map.mp h
  by_cases hc : e₀.1 = name
  · rw [if_pos hc] at heq
    right
    rw [← heq]
  · rw [if_neg hc] at heq
    left
    rw [← heq]
    exact he₀

theorem derefField_append (heap hs : List FieldDict) (a : Nat)
    (h : a < heap.length) : derefField (heap ++ hs) a = derefField heap a := by
  unfold derefField
  rw [List.getD_append _ _ _ _ h]

theorem derefField_append_self (heap : List FieldDict) (f : FieldDict) :
    derefField (heap ++ [f]) heap.length = f := by
  unfold derefField
  rw [List.getD_eq_getElem?_getD, List.getElem?_append_right (by omega)]
  simp

/-! ## Helper lemmas: the coercion branches of `parse_dataframe` -/

/-- On a non-missing, non-blank cell, the number branch of the coercion
is the lenient float-parse-narrow-or-zero policy. -/
theorem coerceField_number_eq (v : Value) (hna : cellIsNa (some v) = false)
    (hb : strBlank (cellStr (some v)) = false) :
    coerceField "number" (some v) =
      match pyFloat v with
      | some q => if q = (pyTruncQ q : ℚ) then .vInt (pyTruncQ q) else .vFloat q
      | none => .vInt 0 := by
  unfold coerceField
  rw [hna, hb]
  simp

/-- On a non-missing, non-blank cell, the list branch of the coercion is
stringify-split-strip-drop. -/
theorem coerceField_list_eq (v : Value) (hna : cellIsNa (some v) = false)
    (hb : strBlank (cellStr (some v)) = false) :
    coerceField "list" (some v) = .vList (splitStrip (pyStr v)) := by
  unfold coerceField
  rw [hna, hb]
  simp

/-- A blank string never parses as a float (`float('')` raises). -/
theorem pyFloatStr_of_blank (s : String) (h : strBlank s = true) :
    pyFloatStr s = none := by
  have hnil : trimChars s.toList = [] := by
    rw [strBlank] at h
    exact List.isEmpty_iff.mp h
  unfold pyFloatStr
  rw [hnil]
  rfl

/-- The field dict built by `update_schema`, with its widget spelled as a
single conditional: the literal widget for a non-empty string, and an
absent key for `""` or `None`. -/
theorem mkFieldDict_eq (fname ftype : String) (req : Bool) (w : Option String) :
    mkFieldDict fname ftype req w
      = ⟨fname, ftype, req, if w = some "" then none else w⟩ := by
  cases w with
  | none => rfl
  | some x =>
    unfold mkFieldDict
    by_cases hx : x = ""
    · subst hx
      rfl
    · simp [hx]

/-! ## Claim-side definitions -/

/-- The length the widget heuristic of schema inference measures: the
character count of a string value (non-strings have no length and never
trigger the heuristic). -/
def valLen : Value → Nat
  | .vStr s => s.length
  | _ => 0

/-- The number narrowing the round-trip claim allows for: a stored float
that Python's `int` conversion reproduces exactly comes back as that
integer; everything else is unchanged. -/
def numNarrow : Value → Value
  | .vFloat q => if q = (pyTruncQ q : ℚ) then .vInt (pyTruncQ q) else .vFloat q
  | v => v

/-! ## Claims -/

/-- C7: for every store, `createSchema` with a name that already exists
reports `DuplicateNameError` and returns the store unchanged; the Create
Schema handler mutates nothing in its duplicate branch. -/
theorem claim_C7 (st : PyState) (name : String) (mode : CreateMode)
    (h : (lookupA name st.store).isSome = true) :
    createSchema st name mode = (st, some PyError.duplicateName) := by
  unfold createSchema
  rw [if_pos h]

/-- Witness for C7: `createSchema(store, "Default", "empty")` on a fresh
store fails with the duplicate-name error and leaves the store as it was. -/
theorem claim_C7_witness :
    createSchema initialState "Default" CreateMode.empty
      = (initialState, some PyError.duplicateName) :=
  claim_C7 initialState "Default" CreateMode.empty (by decide)

/-- C9 (amended): `generate_schema_from_json` is total and returns a
schema on an object, an empty list, or any non-list non-object value
(the latter two yield the empty schema), and on a nonempty list whose
first element is an object; but on a nonempty list whose first element
is *not* an object it raises `AttributeError` (modelled by `none`). -/
theorem claim_C9 :
    (∀ kvs, generate_schema_from_json (.vObj kvs) = some (inferFields kvs)) ∧
    generate_schema_from_json (.vList []) = some [] ∧
    (∀ kvs rest, generate_schema_from_json (.vList (.vObj kvs :: rest))
      = some (inferFields kvs)) ∧
    (∀ v : Value, (∀ kvs, v ≠ .vObj kvs) → (∀ xs, v ≠ .vList xs) →
      generate_schema_from_json v = some []) ∧
    (∀ (v : Value) (rest : List Value), (∀ kvs, v ≠ .vObj kvs) →
      generate_schema_from_json (.vList (v :: rest)) = none) := by
  refine ⟨fun kvs => rfl, rfl, fun kvs rest => rfl, ?_, ?_⟩
  · intro v hobj hlist
    cases v with
    | vObj kvs => exact absurd rfl (hobj kvs)
    | vList xs => exact absurd rfl (hlist xs)
    | vStr s => rfl
    | vInt n => rfl
    | vFloat q => rfl
    | vBool b => rfl
    | vNull => rfl
  · intro v rest hobj
    cases v with
    | vObj kvs => exact absurd rfl (hobj kvs)
    | vStr s => rfl
    | vInt n => rfl
    | vFloat q => rfl
    | vBool b => rfl
    | vNull => rfl
    | vList xs => rfl

/-- Counterexample to C9 as stated: on the sequence `[5]` the code calls
`.items()` on the integer first element and raises `AttributeError`
(modelled by `none`) instead of returning a schema. -/
theorem claim_C9_cex : generate_schema_from_json (.vList [.vInt 5]) = none := rfl

/-- Witness for C9: a bare non-object, non-list value yields the empty
schema. -/
theorem claim_C9_witness : generate_schema_from_json (.vInt 7) = some [] :=
  claim_C9.2.2.2.1 (.vInt 7) (fun kvs h => Value.noConfusion h)
    (fun xs h => Value.noConfusion h)

/-- C10: the list coercion of `toRecords` stringifies the cell before
splitting: any present, non-blank cell is converted to its string form,
split on commas, each piece trimmed and blank pieces dropped; a numeric
cell `5` yields `["5"]` and `"a, ,b"` yields `["a", "b"]`. -/
theorem claim_C10 :
    (∀ v : Value, cellIsNa (some v) = false → strBlank (cellStr (some v)) = false →
      coerceField "list" (some v) = .vList (splitStrip (pyStr v))) ∧
    parse_dataframe ⟨["t"], [[some (.vInt 5)]]⟩ [⟨"t", "list", false, none⟩]
      = [[("t", .vList [.vStr "5"])]] ∧
    parse_dataframe ⟨["t"], [[some (.vStr "a, ,b")]]⟩ [⟨"t", "list", false, none⟩]
      = [[("t", .vList [.vStr "a", .vStr "b"])]] :=
  ⟨coerceField_list_eq, rfl, rfl⟩

/-- Witness for C10: a comma-separated string cell with an all-blank
piece keeps only the trimmed non-blank pieces. -/
theorem claim_C10_witness :
    coerceField "list" (some (.vStr "x ,y")) = .vList [.vStr "x", .vStr "y"] := by
  have h := claim_C10.1 (.vStr "x ,y") rfl (by decide)
  rw [h]
  rfl

/-- C8: schema inference emits one field per key in the sample's own key
order, typed by the priority boolean → number → list → string (so a bool
is never a number, and null or a nested object falls back to string),
with `required = false` everywhere and `widget = "textarea"` exactly when
the type is string and the value is longer than 50 characters. -/
theorem claim_C8 :
    (∀ kvs : List (String × Value), inferFields kvs = kvs.map fun kv =>
      ⟨kv.1, guess_field_type kv.2, false,
        some (if guess_field_type kv.2 = "string" ∧ valLen kv.2 > 50
          then "textarea" else "")⟩) ∧
    (∀ b, guess_field_type (.vBool b) = "boolean") ∧
    (∀ n, guess_field_type (.vInt n) = "number") ∧
    (∀ q, guess_field_type (.vFloat q) = "number") ∧
    (∀ xs, guess_field_type (.vList xs) = "list") ∧
    guess_field_type .vNull = "string" ∧
    (∀ kvs, guess_field_type (.vObj kvs) = "string") ∧
    inferFields [("a", .vBool true), ("b", .vInt 3), ("c", .vList [.vInt 1, .vInt 2]),
        ("d", .vStr ⟨List.replicate 60 'x'⟩)]
      = [⟨"a", "boolean", false, some ""⟩, ⟨"b", "number", false, some ""⟩,
         ⟨"c", "list", false, some ""⟩, ⟨"d", "string", false, some "textarea"⟩] := by
  refine ⟨?_, fun b => rfl, fun n => rfl, fun q => rfl, fun xs => rfl, rfl,
    fun kvs => rfl, rfl⟩
  intro kvs
  unfold inferFields
  apply List.map_congr_left
  intro kv hkv
  obtain ⟨k, v⟩ := kv
  cases v with
  | vStr s =>
    by_cases h50 : s.length > 50 <;>
      simp [guess_field_type, valLen, h50]
  | vInt n => simp [guess_field_type, valLen]
  | vFloat q => simp [guess_field_type, valLen]
  | vBool b => simp [guess_field_type, valLen]
  | vList xs => simp [guess_field_type, valLen]
  | vNull => simp [guess_field_type, valLen]
  | vObj kvs' => simp [guess_field_type, valLen]

/-- Witness for C8: a null value infers a non-required string field with
an empty widget hint. -/
theorem claim_C8_witness :
    inferFields [("k", Value.vNull)] = [⟨"k", "string", false, some ""⟩] := by
  have h := claim_C8.1 [("k", Value.vNull)]
  simpa using h

/-- C6: numeric coercion in `toRecords` is total and lenient: a present,
non-blank cell under a number field is parsed as a float, narrowed to an
integer exactly when the value has zero fractional part (`q == int(q)`,
i.e. denominator 1), and any parse failure yields `0` rather than an
exception; `"12.50"` gives `12.5`, `"12.00"` the integer `12`, and
`"abc"` gives `0`. -/
theorem claim_C6 :
    (∀ (v : Value) (q : ℚ), pyFloat v = some q →
      coerceField "number" (some v)
        = if q = (pyTruncQ q : ℚ) then .vInt (pyTruncQ q) else .vFloat q) ∧
    (∀ v : Value, cellIsNa (some v) = false → strBlank (cellStr (some v)) = false →
      pyFloat v = none → coerceField "number" (some v) = .vInt 0) ∧
    (∀ q : ℚ, q = (pyTruncQ q : ℚ) ↔ q.den = 1) ∧
    parse_dataframe ⟨["n"], [[some (.vStr "12.50")]]⟩ [⟨"n", "number", false, none⟩]
      = [[("n", .vFloat (25 / 2 : ℚ))]] ∧
    parse_dataframe ⟨["n"], [[some (.vStr "12.00")]]⟩ [⟨"n", "number", false, none⟩]
      = [[("n", .vInt 12)]] ∧
    parse_dataframe ⟨["n"], [[some (.vStr "abc")]]⟩ [⟨"n", "number", false, none⟩]
      = [[("n", .vInt 0)]] := by
  refine ⟨?_, ?_, eq_trunc_iff_den_eq_one, ?_, ?_, rfl⟩
  · intro v q h
    cases v with
    | vNull => simp [pyFloat] at h
    | vList xs => simp [pyFloat] at h
    | vObj kvs => simp [pyFloat] at h
    | vInt n => rw [coerceField_number_eq (.vInt n) rfl (strBlank_cellStr_vInt n), h]
    | vFloat q' => rw [coerceField_number_eq (.vFloat q') rfl (strBlank_cellStr_vFloat q'), h]
    | vBool b => rw [coerceField_number_eq (.vBool b) rfl (strBlank_cellStr_vBool b), h]
    | vStr s =>
      cases hb : strBlank s with
      | true =>
        rw [show pyFloat (.vStr s) = pyFloatStr s from rfl, pyFloatStr_of_blank s hb] at h
        exact Option.noConfusion h
      | false => rw [coerceField_number_eq (.vStr s) rfl hb, h]
  · intro v h1 h2 h3
    rw [coerceField_number_eq v h1 h2, h3]
  · have e1 : pyFloat (.vStr "12.50")
        = some ((1 : ℚ) * (((12 : ℕ) : ℚ) + ((50 : ℕ) : ℚ) / (10 : ℚ) ^ 2)) := rfl
    have e2 : (1 : ℚ) * (((12 : ℕ) : ℚ) + ((50 : ℕ) : ℚ) / (10 : ℚ) ^ 2) = 25 / 2 := by
      norm_num
    have hf : pyFloat (.vStr "12.50") = some (25 / 2 : ℚ) := by rw [e1, e2]
    have hT : pyTruncQ (25 / 2 : ℚ) = 12 := by
      unfold pyTruncQ
      rw [if_neg (by norm_num), Int.floor_eq_iff]
      norm_num
    have hstep : parse_dataframe ⟨["n"], [[some (.vStr "12.50")]]⟩
        [⟨"n", "number", false, none⟩]
        = [[("n", coerceField "number" (some (.vStr "12.50")))]] := rfl
    have hcell : coerceField "number" (some (.vStr "12.50")) = Value.vFloat (25 / 2 : ℚ) := by
      rw [coerceField_number_eq (.vStr "12.50") rfl (by decide), hf]
      show (if (25 / 2 : ℚ) = (pyTruncQ (25 / 2 : ℚ) : ℚ) then
          Value.vInt (pyTruncQ (25 / 2 : ℚ)) else Value.vFloat (25 / 2 : ℚ))
        = Value.vFloat (25 / 2 : ℚ)
      rw [hT, if_neg (by norm_num)]
    rw [hstep, hcell]
  · have e1 : pyFloat (.vStr "12.00")
        = some ((1 : ℚ) * (((12 : ℕ) : ℚ) + ((0 : ℕ) : ℚ) / (10 : ℚ) ^ 2)) := rfl
    have e2 : (1 : ℚ) * (((12 : ℕ) : ℚ) + ((0 : ℕ) : ℚ) / (10 : ℚ) ^ 2)
        = ((12 : ℤ) : ℚ) := by norm_num
    have hf : pyFloat (.vStr "12.00") = some ((12 : ℤ) : ℚ) := by rw [e1, e2]
    have hstep : parse_dataframe ⟨["n"], [[some (.vStr "12.00")]]⟩
        [⟨"n", "number", false, none⟩]
        = [[("n", coerceField "number" (some (.vStr "12.00")))]] := rfl
    have hcell : coerceField "number" (some (.vStr "12.00")) = Value.vInt 12 := by
      rw [coerceField_number_eq (.vStr "12.00") rfl (by decide), hf]
      show (if ((12 : ℤ) : ℚ) = (pyTruncQ ((12 : ℤ) : ℚ) : ℚ) then
          Value.vInt (pyTruncQ ((12 : ℤ) : ℚ)) else Value.vFloat ((12 : ℤ) : ℚ))
        = Value.vInt 12
      rw [pyTruncQ_intCast, if_pos rfl]
    rw [hstep, hcell]

/-- Witness for C6: an integer cell parses and narrows back to itself. -/
theorem claim_C6_witness : coerceField "number" (some (.vInt 3)) = .vInt 3 := by
  have h := claim_C6.1 (.vInt 3) ((3 : ℤ) : ℚ) rfl
  rw [h, if_pos (by rw [pyTruncQ_intCast]), pyTruncQ_intCast]

/-! ## Helper lemmas: `update_schema` and the stored field -/

/-- The successful branch of `update_schema`, as one equation. -/
theorem update_schema_some (st : PyState) (sname fname ftype : String)
    (req : Bool) (w : Option String) (addrs : List Nat)
    (h : lookupA sname st.store = some addrs) :
    update_schema st sname fname ftype req w
      = ({ heap := st.heap ++ [mkFieldDict fname ftype req w],
           store := storeSet st.store sname
             (match findIdxA (fun ad => (derefField st.heap ad).name = fname) addrs with
              | some i => addrs.set i st.heap.length
              | none => addrs ++ [st.heap.length]) }, none) := by
  unfold update_schema
  rw [h]

/-- After the slot replacement (or append) of `update_schema`, looking
the field name up in the dereferenced schema finds exactly the freshly
allocated field dict. -/
theorem find_map_deref_update (heap : List FieldDict) (field : FieldDict)
    (fname : String) (hf : field.name = fname) :
    ∀ addrs : List Nat, (∀ a ∈ addrs, a < heap.length) →
    ((match findIdxA (fun ad => (derefField heap ad).name = fname) addrs with
      | some i => addrs.set i heap.length
      | none => addrs ++ [heap.length]).map (derefField (heap ++ [field]))).find?
      (fun f => f.name = fname) = some field := by
  intro addrs
  induction addrs with
  | nil =>
    intro h
    rw [findIdxA_nil]
    simp only [List.nil_append, List.map_cons, List.map_nil]
    rw [derefField_append_self]
    rw [List.find?_cons_of_pos _ (by simp [hf])]
  | cons a rest ih =>
    intro h
    have ha : a < heap.length := h a (by simp)
    have hrest : ∀ x ∈ rest, x < heap.length :=
      fun x hx => h x (List.mem_cons_of_mem _ hx)
    rw [findIdxA_cons]
    by_cases hpa : (derefField heap a).name = fname
    · rw [if_pos (by simp [hpa])]
      show (((a :: rest).set 0 heap.length).map (derefField (heap ++ [field]))).find?
        (fun f => f.name = fname) = some field
      rw [List.set_cons_zero, List.map_cons, derefField_append_self]
      rw [List.find?_cons_of_pos _ (by simp [hf])]
    · rw [if_neg (by simp [hpa])]
      cases hfi : findIdxA (fun ad => decide ((derefField heap ad).name = fname)) rest with
      | some i =>
        rw [Option.map_some']
        show (((a :: rest).set (i + 1) heap.length).map
          (derefField (heap ++ [field]))).find? (fun f => f.name = fname) = some field
        rw [List.set_cons_succ, List.map_cons,
          List.find?_cons_of_neg _ (by rw [derefField_append _ _ _ ha]; simp [hpa])]
        have := ih hrest
        rw [hfi] at this
        exact this
      | none =>
        rw [Option.map_none']
        show ((a :: rest ++ [heap.length]).map (derefField (heap ++ [field]))).find?
          (fun f => f.name = fname) = some field
        rw [List.cons_append, List.map_cons,
          List.find?_cons_of_neg _ (by rw [derefField_append _ _ _ ha]; simp [hpa])]
        have := ih hrest
        rw [hfi] at this
        exact this

/-- The first component of the successful branch of `update_schema`. -/
theorem update_schema_fst (st : PyState) (sname fname ftype : String)
    (req : Bool) (w : Option String) (addrs : List Nat)
    (h : lookupA sname st.store = some addrs) :
    (update_schema st sname fname ftype req w).1
      = { heap := st.heap ++ [mkFieldDict fname ftype req w],
          store := storeSet st.store sname
            (match findIdxA (fun ad => (derefField st.heap ad).name = fname) addrs with
             | some i => addrs.set i st.heap.length
             | none => addrs ++ [st.heap.length]) } := by
  rw [update_schema_some st sname fname ftype req w addrs h]

/-- `derefSchema` of a literal state on a present name. -/
theorem derefSchema_eq (heap : List FieldDict) (store : List (String × List Nat))
    (name : String) (addrs : List Nat) (h : lookupA name store = some addrs) :
    derefSchema ⟨heap, store⟩ name = addrs.map (derefField heap) := by
  unfold derefSchema
  rw [h]

/-- C3 (amended): after `upsertField`, the field stored under the given
field name carries the widget that was passed when it is a non-empty
string; a `""` (or `None`) widget leaves the `widget` key *omitted* from
the stored dict rather than stored as an empty value. -/
theorem claim_C3 (st : PyState) (sname fname ftype : String) (req : Bool)
    (w : Option String) (addrs : List Nat) (hWF : WFState st)
    (h : lookupA sname st.store = some addrs) :
    (derefSchema (update_schema st sname fname ftype req w).1 sname).find?
      (fun f => f.name = fname)
      = some ⟨fname, ftype, req, if w = some "" then none else w⟩ := by
  rw [update_schema_fst st sname fname ftype req w addrs h,
    derefSchema_eq _ _ _ _ (lookupA_storeSet_self _ _ _ addrs h), ← mkFieldDict_eq]
  exact find_map_deref_update st.heap (mkFieldDict fname ftype req w) fname rfl addrs
    (fun a ha => hWF (sname, addrs) (lookupA_mem _ _ _ h) a ha)

/-- Counterexample to C3 as stated: upserting with the widget string `""`
stores a field whose `widget` entry is absent (`none`), not the literal
empty string. -/
theorem claim_C3_cex :
    ((derefSchema (update_schema initialState "Default" "name" "string" true
        (some "")).1 "Default").find? (fun f => f.name = "name")).map FieldDict.widget
      = some none ∧
    ((derefSchema (update_schema initialState "Default" "name" "string" true
        (some "")).1 "Default").find? (fun f => f.name = "name")).map FieldDict.widget
      ≠ some (some "") := by
  refine ⟨by decide, by decide⟩

/-- Witness for C3: upserting a fresh field with widget `"textarea"`
stores that literal widget string. -/
theorem claim_C3_witness :
    (derefSchema (update_schema initialState "Default" "title" "string" false
        (some "textarea")).1 "Default").find? (fun f => f.name = "title")
      = some ⟨"title", "string", false, some "textarea"⟩ := by
  have h := claim_C3 initialState "Default" "title" "string" false (some "textarea")
    [0, 1] (by decide) (by decide)
  simpa using h

/-- C4 (amended): a row all of whose cells are blank strings, or all of
whose cells are missing/null, is skipped by `toRecords` — inserting it
anywhere changes nothing.  (A *mixture* of nulls and blank strings is
not skipped: neither `isnull().all()` nor the all-blank string test
holds, see the counterexample.) -/
theorem claim_C4 (cols : List String) (r₁ r₂ : List (List Cell)) (row : List Cell)
    (schema : Schema)
    (h : (∀ c ∈ row, ∃ s, c = some (.vStr s) ∧ strBlank s = true) ∨
      ∀ c ∈ row, cellIsNa c = true) :
    parse_dataframe ⟨cols, r₁ ++ row :: r₂⟩ schema
      = parse_dataframe ⟨cols, r₁ ++ r₂⟩ schema := by
  have hb : rowBlank row = true := by
    unfold rowBlank
    rcases h with h | h
    · apply Bool.or_eq_true_iff.mpr
      right
      rw [List.all_eq_true]
      intro c hc
      obtain ⟨s, rfl, hs⟩ := h c hc
      simpa [cellStr, pyStr] using hs
    · apply Bool.or_eq_true_iff.mpr
      left
      rw [List.all_eq_true]
      intro c hc
      simpa using h c hc
  unfold parse_dataframe
  simp [List.filter_append, List.filter_cons, hb]

/-- Witness for C4: a one-cell whitespace row inserted before a data row
leaves the parse unchanged. -/
theorem claim_C4_witness :
    parse_dataframe ⟨["a"], [[some (.vStr " ")], [some (.vStr "x")]]⟩
        [⟨"a", "string", false, none⟩]
      = parse_dataframe ⟨["a"], [[some (.vStr "x")]]⟩ [⟨"a", "string", false, none⟩] := by
  have h := claim_C4 ["a"] [] [[some (.vStr "x")]] [some (.vStr " ")]
    [⟨"a", "string", false, none⟩]
    (Or.inl (by
      intro c hc
      simp only [List.mem_singleton] at hc
      subst hc
      exact ⟨" ", rfl, by decide⟩))
  exact h

/-- Counterexample to C4 as stated: a row mixing a null cell and an empty
string cell is *not* skipped — it produces a record of defaults. -/
theorem claim_C4_cex :
    parse_dataframe ⟨["a", "b"], [[none, some (.vStr "")]]⟩
        [⟨"a", "string", false, none⟩, ⟨"b", "string", false, none⟩]
      = [[("a", .vStr ""), ("b", .vStr "")]] ∧
    parse_dataframe ⟨["a", "b"], [[none, some (.vStr "")]]⟩
        [⟨"a", "string", false, none⟩, ⟨"b", "string", false, none⟩]
      ≠ [] := by
  refine ⟨rfl, ?_⟩
  intro hc
  rw [show parse_dataframe ⟨["a", "b"], [[none, some (.vStr "")]]⟩
      [⟨"a", "string", false, none⟩, ⟨"b", "string", false, none⟩]
    = [[("a", .vStr ""), ("b", .vStr "")]] from rfl] at hc
  exact List.noConfusion hc

/-! ## Helper lemmas: frame properties of the store operations -/

/-- `derefSchema` through a successful lookup. -/
theorem derefSchema_some (st : PyState) (name : String) (addrs : List Nat)
    (h : lookupA name st.store = some addrs) :
    derefSchema st name = addrs.map (derefField st.heap) := by
  unfold derefSchema
  rw [h]

/-- `derefSchema` of an absent name. -/
theorem derefSchema_none (st : PyState) (name : String)
    (h : lookupA name st.store = none) : derefSchema st name = [] := by
  unfold derefSchema
  rw [h]

/-- The first component of the successful branch of `delete_field`. -/
theorem delete_field_fst (st : PyState) (sname fname : String) (addrs : List Nat)
    (h : lookupA sname st.store = some addrs) :
    (delete_field st sname fname).1
      = { st with
            store := storeSet st.store sname
              (addrs.filter fun ad => ¬ (derefField st.heap ad).name = fname) } := by
  unfold delete_field
  rw [h]

/-- `update_schema` on a missing schema name raises `KeyError` and leaves
the state unchanged. -/
theorem update_schema_fst_none (st : PyState) (sname fname ftype : String)
    (req : Bool) (w : Option String) (h : lookupA sname st.store = none) :
    (update_schema st sname fname ftype req w).1 = st := by
  unfold update_schema
  rw [h]

/-- `delete_field` on a missing schema name raises `KeyError` and leaves
the state unchanged. -/
theorem delete_field_fst_none (st : PyState) (sname fname : String)
    (h : lookupA sname st.store = none) : (delete_field st sname fname).1 = st := by
  unfold delete_field
  rw [h]

/-- Every field-level mutation preserves well-formedness of the state. -/
theorem WFState_applyMut (st : PyState) (op : MutOp) (h : WFState st) :
    WFState (applyMut st op) := by
  cases op with
  | upsert sname fname ftype req w =>
    show WFState (update_schema st sname fname ftype req w).1
    cases hl : lookupA sname st.store with
    | none => rw [update_schema_fst_none st sname fname ftype req w hl]; exact h
    | some addrs =>
      rw [update_schema_fst st sname fname ftype req w addrs hl]
      intro e he a ha
      show a < (st.heap ++ [mkFieldDict fname ftype req w]).length
      rw [List.length_append]
      have haddrs : ∀ x ∈ addrs, x < st.heap.length :=
        h (sname, addrs) (lookupA_mem _ _ _ hl)
      rcases mem_of_mem_storeSet _ _ _ e he with he' | he2
      · have := h e he' a ha
        simp only [List.length_cons, List.length_nil]
        omega
      · rw [he2] at ha
        cases hfi : findIdxA (fun ad => (derefField st.heap ad).name = fname) addrs with
        | some i =>
          rw [hfi] at ha
          rcases List.mem_or_eq_of_mem_set ha with hx | hx
          · have := haddrs a hx
            simp only [List.length_cons, List.length_nil]
            omega
          · subst hx
            simp only [List.length_cons, List.length_nil]
            omega
        | none =>
          rw [hfi] at ha
          rcases List.mem_append.mp ha with hx | hx
          · have := haddrs a hx
            simp only [List.length_cons, List.length_nil]
            omega
          · simp only [List.mem_singleton] at hx
            subst hx
            simp only [List.length_cons, List.length_nil]
            omega
  | delField sname fname =>
    show WFState (delete_field st sname fname).1
    cases hl : lookupA sname st.store with
    | none => rw [delete_field_fst_none st sname fname hl]; exact h
    | some addrs =>
      rw [delete_field_fst st sname fname addrs hl]
      intro e he a ha
      show a < st.heap.length
      have haddrs : ∀ x ∈ addrs, x < st.heap.length :=
        h (sname, addrs) (lookupA_mem _ _ _ hl)
      rcases mem_of_mem_storeSet _ _ _ e he with he' | he2
      · exact h e he' a ha
      · rw [he2] at ha
        exact haddrs a (List.mem_of_mem_filter ha)

/-- Frame property: a mutation targeting one schema name leaves the
dereferenced field sequence of every *other* name untouched (the heap
only grows, and only the targeted name is rebound). -/
theorem derefSchema_applyMut_ne (st : PyState) (op : MutOp) (m : String)
    (hW : WFState st) (hm : m ≠ op.target) :
    derefSchema (applyMut st op) m = derefSchema st m := by
  cases op with
  | upsert sname fname ftype req w =>
    have hm' : m ≠ sname := by simpa [MutOp.target] using hm
    show derefSchema (update_schema st sname fname ftype req w).1 m = derefSchema st m
    cases hl : lookupA sname st.store with
    | none => rw [update_schema_fst_none st sname fname ftype req w hl]
    | some addrs =>
      rw [update_schema_fst st sname fname ftype req w addrs hl]
      cases hlm : lookupA m st.store with
      | none =>
        rw [derefSchema_none st m hlm,
          derefSchema_none _ m ((lookupA_storeSet_ne _ _ _ _ hm').trans hlm)]
      | some as =>
        rw [derefSchema_some st m as hlm,
          derefSchema_some _ m as ((lookupA_storeSet_ne _ _ _ _ hm').trans hlm)]
        apply List.map_congr_left
        intro a ha
        exact derefField_append _ _ _ (hW (m, as) (lookupA_mem _ _ _ hlm) a ha)
  | delField sname fname =>
    have hm' : m ≠ sname := by simpa [MutOp.target] using hm
    show derefSchema (delete_field st sname fname).1 m = derefSchema st m
    cases hl : lookupA sname st.store with
    | none => rw [delete_field_fst_none st sname fname hl]
    | some addrs =>
      rw [delete_field_fst st sname fname addrs hl]
      cases hlm : lookupA m st.store with
      | none =>
        rw [derefSchema_none st m hlm,
          derefSchema_none _ m ((lookupA_storeSet_ne _ _ _ _ hm').trans hlm)]
      | some as =>
        rw [derefSchema_some st m as hlm,
          derefSchema_some _ m as ((lookupA_storeSet_ne _ _ _ _ hm').trans hlm)]

/-- Well-formedness is preserved by any sequence of mutations. -/
theorem WFState_foldl (ops : List MutOp) :
    ∀ st : PyState, WFState st → WFState (ops.foldl applyMut st) := by
  induction ops with
  | nil => intro st h; exact h
  | cons op rest ih => intro st h; exact ih _ (WFState_applyMut st op h)

/-- The duplicate-name branch of the Create Schema handler. -/
theorem createSchema_dup (st : PyState) (name : String) (mode : CreateMode)
    (h : (lookupA name st.store).isSome = true) :
    createSchema st name mode = (st, some PyError.duplicateName) := by
  unfold createSchema
  rw [if_pos h]

/-- The successful copy branch of the Create Schema handler. -/
theorem createSchema_copy_some (st : PyState) (newName src : String)
    (addrs : List Nat) (hdup : lookupA newName st.store = none)
    (hsrc : lookupA src st.store = some addrs) :
    createSchema st newName (.copyOf src)
      = ({ st with store := st.store ++ [(newName, addrs)] }, none) := by
  unfold createSchema
  rw [hdup, if_neg (by simp)]
  show (match lookupA src st.store with
    | some addrs =>
      (({ heap := st.heap, store := st.store ++ [(newName, addrs)] } : PyState), none)
    | none => (st, some PyError.keyError)) = _
  rw [hsrc]

/-- The missing-source branch of the copy mode (`KeyError`). -/
theorem createSchema_copy_none (st : PyState) (newName src : String)
    (hdup : lookupA newName st.store = none)
    (hsrc : lookupA src st.store = none) :
    createSchema st newName (.copyOf src) = (st, some PyError.keyError) := by
  unfold createSchema
  rw [hdup, if_neg (by simp)]
  show (match lookupA src st.store with
    | some addrs =>
      (({ heap := st.heap, store := st.store ++ [(newName, addrs)] } : PyState), none)
    | none => (st, some PyError.keyError)) = _
  rw [hsrc]

/-- C5: after creating a schema as a copy of an existing one, any
sequence of later mutations followed by one more `upsertField` or
`deleteField` targeting either of the two names leaves the other name's
field sequence — contents included — unchanged.  (`list.copy()` shares
the field dicts, but no operation ever mutates a field dict in place:
`update_schema` allocates a fresh dict and rebinds a slot, and
`delete_field` rebinds the whole list.) -/
theorem claim_C5 (st : PyState) (srcName newName : String) (st' : PyState)
    (hW : WFState st)
    (h : createSchema st newName (.copyOf srcName) = (st', none))
    (ops : List MutOp) (op : MutOp) :
    (op.target = newName →
      derefSchema (applyMut (ops.foldl applyMut st') op) srcName
        = derefSchema (ops.foldl applyMut st') srcName) ∧
    (op.target = srcName →
      derefSchema (applyMut (ops.foldl applyMut st') op) newName
        = derefSchema (ops.foldl applyMut st') newName) := by
  by_cases hdup : (lookupA newName st.store).isSome = true
  · rw [createSchema_dup st newName _ hdup] at h
    exact absurd (congrArg Prod.snd h) (by simp)
  · have hdup' : lookupA newName st.store = none := by
      cases hd : lookupA newName st.store with
      | none => rfl
      | some x => rw [hd] at hdup; simp at hdup
    cases hsrc : lookupA srcName st.store with
    | none =>
      rw [createSchema_copy_none st newName srcName hdup' hsrc] at h
      exact absurd (congrArg Prod.snd h) (by simp)
    | some addrs =>
      rw [createSchema_copy_some st newName srcName addrs hdup' hsrc] at h
      have hst' : st' = { st with store := st.store ++ [(newName, addrs)] } :=
        (congrArg Prod.fst h).symm
      have hne : srcName ≠ newName := by
        intro hcontra
        rw [hcontra, hdup'] at hsrc
        exact Option.noConfusion hsrc
      have hWst' : WFState st' := by
        rw [hst']
        intro e he a ha
        rcases List.mem_append.mp he with he' | he'
        · exact hW e he' a ha
        · simp only [List.mem_singleton] at he'
          subst he'
          exact hW (srcName, addrs) (lookupA_mem _ _ _ hsrc) a ha
      have hW1 : WFState (ops.foldl applyMut st') := WFState_foldl ops st' hWst'
      constructor
      · intro ht
        exact derefSchema_applyMut_ne _ op srcName hW1 (by rw [ht]; exact hne)
      · intro ht
        exact derefSchema_applyMut_ne _ op newName hW1 (by rw [ht]; exact hne.symm)

/-- Witness for C5: in the fresh store, copy `Default` to `B`, then
upsert a field into `B`; `Default` still dereferences to its two seed
fields. -/
theorem claim_C5_witness :
    derefSchema (applyMut
        { heap := [⟨"name", "string", true, none⟩, ⟨"value", "string", false, none⟩],
          store := [("Default", [0, 1]), ("B", [0, 1])] }
        (MutOp.upsert "B" "name" "number" false none)) "Default"
      = derefSchema
        { heap := [⟨"name", "string", true, none⟩, ⟨"value", "string", false, none⟩],
          store := [("Default", [0, 1]), ("B", [0, 1])] } "Default" := by
  have h := claim_C5 initialState "Default" "B"
    { heap := [⟨"name", "string", true, none⟩, ⟨"value", "string", false, none⟩],
      store := [("Default", [0, 1]), ("B", [0, 1])] }
    (by decide) (by decide) [] (MutOp.upsert "B" "name" "number" false none)
  exact h.1 rfl

/-! ## Helper lemmas: columns of the projected table -/

/-- Rows of a table are positionally aligned with its columns. -/
def Aligned (t : Table) : Prop := ∀ row ∈ t.rows, row.length = t.cols.length

theorem mkDataFrame_cols (data : List Record) :
    (mkDataFrame data).cols = dfColumns data := rfl

theorem mkDataFrame_rows (data : List Record) :
    (mkDataFrame data).rows
      = data.map fun item => (dfColumns data).map fun c => lookupA c item := rfl

theorem convert_for_dataframe_eq (data : List Record) (schema : Schema) :
    convert_for_dataframe data schema = data.map fun item => item.map fun kv =>
      if lookupA kv.1 (schema.map fun f => (f.name, f.type)) = some "list" then
        match kv.2 with
        | .vList xs => (kv.1, .vStr (joinCS xs))
        | _ => kv
      else kv := rfl

/-- The inner key fold of `dfColumns` ignores values. -/
theorem foldl_keys_map (g : String × Value → String × Value)
    (hg : ∀ kv, (g kv).1 = kv.1) :
    ∀ (item : Record) (acc : List String),
      (item.map g).foldl (fun acc kv => if kv.1 ∈ acc then acc else acc ++ [kv.1]) acc
        = item.foldl (fun acc kv => if kv.1 ∈ acc then acc else acc ++ [kv.1]) acc := by
  intro item
  induction item with
  | nil => intro acc; rfl
  | cons kv rest ih =>
    intro acc
    rw [List.map_cons, List.foldl_cons, List.foldl_cons, hg kv]
    exact ih _

/-- `convert_for_dataframe` preserves each record's keys, hence the
DataFrame columns. -/
theorem dfColumns_convert (records : List Record) (schema : Schema) :
    dfColumns (convert_for_dataframe records schema) = dfColumns records := by
  rw [convert_for_dataframe_eq]
  unfold dfColumns
  rw [List.foldl_map]
  have hg : ∀ kv : String × Value,
      ((fun kv : String × Value =>
        if lookupA kv.1 (schema.map fun f => (f.name, f.type)) = some "list" then
          match kv.2 with
          | .vList xs => (kv.1, Value.vStr (joinCS xs))
          | _ => kv
        else kv) kv).1 = kv.1 := by
    intro kv
    obtain ⟨k, v⟩ := kv
    by_cases hc : lookupA k (schema.map fun f => (f.name, f.type)) = some "list"
    · simp only [if_pos hc]
      cases v <;> rfl
    · simp only [if_neg hc]
  have haux : ∀ (rs : List Record) (acc : List String),
      rs.foldl (fun acc item =>
          (item.map fun kv =>
            if lookupA kv.1 (schema.map fun f => (f.name, f.type)) = some "list" then
              match kv.2 with
              | .vList xs => (kv.1, Value.vStr (joinCS xs))
              | _ => kv
            else kv).foldl
            (fun acc kv => if kv.1 ∈ acc then acc else acc ++ [kv.1]) acc) acc
        = rs.foldl (fun acc item =>
            item.foldl (fun acc kv => if kv.1 ∈ acc then acc else acc ++ [kv.1]) acc)
            acc := by
    intro rs
    induction rs with
    | nil => intro acc; rfl
    | cons item rest ih =>
      intro acc
      rw [List.foldl_cons, List.foldl_cons, foldl_keys_map _ hg item acc]
      exact ih _
  exact haux records []

theorem getD_append_self {α : Type} (l : List α) (x d : α) :
    (l ++ [x]).getD l.length d = x := by
  rw [List.getD_eq_getElem?_getD, List.getElem?_append_right (Nat.le_refl _)]
  simp

theorem syncColumns_nil (t : Table) : syncColumns t [] = t := rfl

theorem syncColumns_cons (t : Table) (f : FieldDict) (fs : Schema) :
    syncColumns t (f :: fs)
      = syncColumns
          (if f.name ∈ t.cols then t
           else { cols := t.cols ++ [f.name],
                  rows := t.rows.map fun row => row ++ [some (.vStr "")] }) fs := by
  unfold syncColumns
  rw [List.foldl_cons]

theorem Aligned_extend (t : Table) (n' : String) (hal : Aligned t) :
    Aligned { cols := t.cols ++ [n'],
              rows := t.rows.map fun row => row ++ [some (.vStr "")] } := by
  intro row' hrow'
  obtain ⟨row, hrow, rfl⟩ := List.mem_map.mp hrow'
  show (row ++ [some (Value.vStr "")]).length = (t.cols ++ [n']).length
  rw [List.length_append, List.length_append, hal row hrow]
  rfl

theorem syncColumns_aligned (fs : Schema) :
    ∀ t : Table, Aligned t → Aligned (syncColumns t fs) := by
  induction fs with
  | nil => intro t h; rw [syncColumns_nil]; exact h
  | cons f fs ih =>
    intro t h
    rw [syncColumns_cons]
    by_cases hm : f.name ∈ t.cols
    · rw [if_pos hm]; exact ih t h
    · rw [if_neg hm]; exact ih _ (Aligned_extend t f.name h)

/-- The columns after the sync: the existing columns followed by the
schema names not yet present, in schema order. -/
theorem syncColumns_cols (fs : Schema) :
    ∀ t : Table, (fs.map FieldDict.name).Nodup →
    (syncColumns t fs).cols
      = t.cols ++ (fs.map FieldDict.name).filter (fun n => ¬ n ∈ t.cols) := by
  induction fs with
  | nil => intro t _; rw [syncColumns_nil]; simp
  | cons f fs ih =>
    intro t hnd
    rw [List.map_cons] at hnd
    have hnd' : (fs.map FieldDict.name).Nodup := (List.nodup_cons.mp hnd).2
    have hnotin : f.name ∉ fs.map FieldDict.name := (List.nodup_cons.mp hnd).1
    rw [syncColumns_cons]
    by_cases hm : f.name ∈ t.cols
    · rw [if_pos hm, ih t hnd']
      conv_rhs => rw [List.map_cons, List.filter_cons]
      rw [if_neg (by simp [hm])]
    · rw [if_neg hm, ih _ hnd']
      conv_rhs => rw [List.map_cons, List.filter_cons]
      rw [if_pos (by simp [hm])]
      show (t.cols ++ [f.name])
          ++ (fs.map FieldDict.name).filter (fun n => ¬ n ∈ t.cols ++ [f.name])
        = t.cols ++ f.name :: (fs.map FieldDict.name).filter (fun n => ¬ n ∈ t.cols)
      rw [List.append_assoc, List.singleton_append]
      congr 1
      congr 1
      apply List.filter_congr
      intro x hx
      have hxne : x ≠ f.name := fun hcontra => hnotin (hcontra ▸ hx)
      simp [List.mem_append, hxne]

/-- A stable per-row cell fact survives the sync: once every row answers
`c` for a present column, appending further columns never changes that
answer. -/
theorem sync_invariant (fs : Schema) :
    ∀ (t : Table) (name : String) (c : Cell), Aligned t → name ∈ t.cols →
    (∀ row ∈ t.rows, rowGet t.cols row name = c) →
    ∀ row ∈ (syncColumns t fs).rows, rowGet (syncColumns t fs).cols row name = c := by
  induction fs with
  | nil =>
    intro t name c _ _ hrows
    rw [syncColumns_nil]
    exact hrows
  | cons f fs ih =>
    intro t name c hal hmem hrows
    rw [syncColumns_cons]
    by_cases hm : f.name ∈ t.cols
    · rw [if_pos hm]; exact ih t name c hal hmem hrows
    · rw [if_neg hm]
      apply ih _ name c (Aligned_extend t f.name hal) (List.mem_append_left _ hmem)
      intro row' hrow'
      obtain ⟨row, hrowmem, rfl⟩ := List.mem_map.mp hrow'
      obtain ⟨i, hi⟩ := findIdxA_exists_of_mem (fun col => decide (col = name)) t.cols
        name hmem (by simp)
      have hlt := findIdxA_lt_length _ _ _ hi
      show rowGet (t.cols ++ [f.name]) (row ++ [some (Value.vStr "")]) name = c
      unfold rowGet
      rw [findIdxA_append_some _ _ _ _ hi]
      show (row ++ [some (Value.vStr "")]).getD i none = c
      rw [List.getD_append _ _ _ _ (by rw [hal row hrowmem]; exact hlt)]
      have hold := hrows row hrowmem
      unfold rowGet at hold
      rw [hi] at hold
      exact hold

/-- A schema field whose name was not a column gets appended with the
empty string in every row. -/
theorem sync_new_col (fs : Schema) :
    ∀ (t : Table) (f : FieldDict), Aligned t → f ∈ fs →
    (fs.map FieldDict.name).Nodup → f.name ∉ t.cols →
    ∀ row ∈ (syncColumns t fs).rows,
      rowGet (syncColumns t fs).cols row f.name = some (.vStr "") := by
  induction fs with
  | nil => intro t f _ hf; simp at hf
  | cons g gs ih =>
    intro t f hal hf hnd hnot
    rw [List.map_cons] at hnd
    have hnd' : (gs.map FieldDict.name).Nodup := (List.nodup_cons.mp hnd).2
    have hgnot : g.name ∉ gs.map FieldDict.name := (List.nodup_cons.mp hnd).1
    rw [syncColumns_cons]
    rcases List.mem_cons.mp hf with rfl | hf'
    · rw [if_neg hnot]
      apply sync_invariant gs _ f.name (some (.vStr ""))
        (Aligned_extend t f.name hal) (List.mem_append_right _ (by simp))
      intro row' hrow'
      obtain ⟨row, hrowmem, rfl⟩ := List.mem_map.mp hrow'
      show rowGet (t.cols ++ [f.name]) (row ++ [some (Value.vStr "")]) f.name
        = some (Value.vStr "")
      unfold rowGet
      rw [findIdxA_append_none _ _ _
        (findIdxA_eq_none _ _ (fun x hx => by
          simpa using fun hc : x = f.name => hnot (hc ▸ hx)))]
      rw [show findIdxA (fun col => decide (col = f.name)) [f.name] = some 0 by
        rw [findIdxA_cons, if_pos (by simp)]]
      rw [Option.map_some']
      show (row ++ [some (Value.vStr "")]).getD (0 + t.cols.length) none
        = some (Value.vStr "")
      rw [Nat.zero_add, ← hal row hrowmem, getD_append_self]
    · have hfname_ne : f.name ≠ g.name := by
        intro hcontra
        exact hgnot (hcontra ▸ List.mem_map_of_mem FieldDict.name hf')
      by_cases hm : g.name ∈ t.cols
      · rw [if_pos hm]
        exact ih t f hal hf' hnd' hnot
      · rw [if_neg hm]
        apply ih _ f (Aligned_extend t g.name hal) hf' hnd'
        simp [List.mem_append, hnot, hfname_ne]

/-- C2 (amended): the columns of `toTable records schema` are the union
of the source records' keys in first-seen order, followed by the schema
field names not among them, in schema order; every schema field name is a
column, and a schema field present in *no* record gets the empty string
in every row.  (Keys of the records that are not schema fields remain as
columns, and the columns are not in schema order in general — see the
counterexample.) -/
theorem claim_C2 (records : List Record) (schema : Schema)
    (hnd : (schema.map FieldDict.name).Nodup) :
    ((toTable records schema).cols
      = dfColumns records
        ++ (schema.map FieldDict.name).filter (fun n => ¬ n ∈ dfColumns records)) ∧
    (∀ f ∈ schema, f.name ∈ (toTable records schema).cols) ∧
    (∀ f ∈ schema, f.name ∉ dfColumns records →
      ∀ row ∈ (toTable records schema).rows,
        rowGet (toTable records schema).cols row f.name = some (.vStr "")) := by
  have hcols0 : (mkDataFrame (convert_for_dataframe records schema)).cols
      = dfColumns records := by
    rw [mkDataFrame_cols, dfColumns_convert]
  have hal : Aligned (mkDataFrame (convert_for_dataframe records schema)) := by
    intro row hrow
    rw [mkDataFrame_rows] at hrow
    obtain ⟨item, hitem, rfl⟩ := List.mem_map.mp hrow
    rw [List.length_map, mkDataFrame_cols]
  have h1 : (toTable records schema).cols
      = dfColumns records
        ++ (schema.map FieldDict.name).filter (fun n => ¬ n ∈ dfColumns records) := by
    show (syncColumns (mkDataFrame (convert_for_dataframe records schema)) schema).cols
      = _
    rw [syncColumns_cols schema _ hnd, hcols0]
  refine ⟨h1, ?_, ?_⟩
  · intro f hf
    rw [h1]
    by_cases hm : f.name ∈ dfColumns records
    · exact List.mem_append_left _ hm
    · refine List.mem_append_right _ (List.mem_filter.mpr ⟨List.mem_map_of_mem _ hf, ?_⟩)
      simp [hm]
  · intro f hf hnot
    exact sync_new_col schema _ f hal hf hnd (by rw [hcols0]; exact hnot)

/-- Counterexample to C2 as stated: a record key that is not a schema
field stays as a column, so the table's columns are not exactly the
schema's field names. -/
theorem claim_C2_cex :
    (toTable [[("x", .vStr "v")]] [⟨"a", "string", false, none⟩]).cols = ["x", "a"] ∧
    (toTable [[("x", .vStr "v")]] [⟨"a", "string", false, none⟩]).cols ≠ ["a"] := by
  refine ⟨rfl, by decide⟩

/-- Witness for C2: the columns are the record's keys followed by the
missing schema names. -/
theorem claim_C2_witness :
    (toTable [[("k", .vInt 1)]]
        [⟨"k", "number", false, none⟩, ⟨"m", "string", false, none⟩]).cols
      = ["k", "m"] := by
  have h := claim_C2 [[("k", .vInt 1)]]
    [⟨"k", "number", false, none⟩, ⟨"m", "string", false, none⟩] (by simp)
  rw [h.1]
  decide

/-! ## Helper lemmas for the round trip -/

/-- A trimmed nonempty string contains a non-whitespace character. -/
theorem exists_nonws_of_trimmed (e : String) (hne : e ≠ "")
    (htrim : pyStrip e = e) : ∃ c ∈ e.toList, isWs c = false := by
  have htrim' : trimChars e.toList = e.toList := congrArg String.data htrim
  have hnil : e.toList ≠ [] := by
    intro hcontra
    apply hne
    have he : e = ⟨e.toList⟩ := rfl
    rw [he, hcontra]
  by_contra hc
  push_neg at hc
  have hall : ∀ c ∈ e.toList, isWs c = true := by
    intro c hcm
    cases hb : isWs c with
    | false => exact absurd hb (hc c hcm)
    | true => rfl
  rw [trimChars_nil_of_all_ws _ hall] at htrim'
  exact hnil htrim'.symm

/-- The string branch of the coercion: an empty or non-blank string cell
round-trips unchanged. -/
theorem coerceField_string_id (sv : String) (hsv : sv = "" ∨ strBlank sv = false) :
    coerceField "string" (some (.vStr sv)) = .vStr sv := by
  rcases hsv with rfl | hsv
  · rfl
  · unfold coerceField
    rw [show cellIsNa (some (Value.vStr sv)) = false from rfl,
      show cellStr (some (Value.vStr sv)) = sv from rfl, hsv]
    simp [pyStr]

/-- The boolean branch of the coercion passes a stored bool through. -/
theorem coerceField_bool_id (bv : Bool) :
    coerceField "boolean" (some (.vBool bv)) = .vBool bv := by
  unfold coerceField
  rw [show cellIsNa (some (Value.vBool bv)) = false from rfl,
    strBlank_cellStr_vBool bv]
  simp

/-- The number branch of the coercion performs exactly the claim's
narrowing on a stored int or float. -/
theorem coerceField_num_narrow (nv : Value)
    (hnv : (∃ n : Int, nv = .vInt n) ∨ ∃ q : ℚ, nv = .vFloat q) :
    coerceField "number" (some nv) = numNarrow nv := by
  rcases hnv with ⟨n, rfl⟩ | ⟨q, rfl⟩
  · rw [coerceField_number_eq (.vInt n) rfl (strBlank_cellStr_vInt n),
      show pyFloat (Value.vInt n) = some ((n : ℤ) : ℚ) from rfl]
    show (if ((n : ℤ) : ℚ) = (pyTruncQ ((n : ℤ) : ℚ) : ℚ) then
        Value.vInt (pyTruncQ ((n : ℤ) : ℚ)) else Value.vFloat ((n : ℤ) : ℚ))
      = numNarrow (.vInt n)
    rw [pyTruncQ_intCast, if_pos rfl]
    rfl
  · rw [coerceField_number_eq (.vFloat q) rfl (strBlank_cellStr_vFloat q),
      show pyFloat (Value.vFloat q) = some q from rfl]
    rfl

/-- The list branch of the coercion recovers a list of clean element
strings from its joined cell. -/
theorem coerceField_list_id (elems : List String)
    (helems : ∀ e ∈ elems, e ≠ "" ∧ pyStrip e = e ∧ ∀ c ∈ e.toList, c ≠ ',') :
    coerceField "list" (some (.vStr (joinCS (elems.map .vStr))))
      = .vList (elems.map .vStr) := by
  cases elems with
  | nil => rfl
  | cons e rest =>
    obtain ⟨hne, htrim, hcf⟩ := helems e (by simp)
    obtain ⟨c₀, hc₀, hws⟩ := exists_nonws_of_trimmed e hne htrim
    have hjoined : joinCS ((e :: rest).map Value.vStr)
        = ⟨joinChars [',', ' '] ((e :: rest).map String.toList)⟩ := by
      unfold joinCS
      rw [List.map_map]
      rfl
    have hmem : c₀ ∈ (joinCS ((e :: rest).map Value.vStr)).toList := by
      rw [hjoined]
      show c₀ ∈ joinChars [',', ' '] (e.toList :: rest.map String.toList)
      cases hr : rest.map String.toList with
      | nil => exact hc₀
      | cons x xs =>
        show c₀ ∈ e.toList ++ [',', ' '] ++ joinChars [',', ' '] (x :: xs)
        exact List.mem_append_left _ (List.mem_append_left _ hc₀)
    have hnb : strBlank (joinCS ((e :: rest).map Value.vStr)) = false :=
      strBlank_eq_false_of_mem _ c₀ hmem hws
    rw [coerceField_list_eq (.vStr (joinCS ((e :: rest).map Value.vStr))) rfl
      (by rw [show cellStr (some (Value.vStr (joinCS ((e :: rest).map Value.vStr))))
          = joinCS ((e :: rest).map Value.vStr) from rfl]; exact hnb)]
    show Value.vList (splitStrip (joinCS ((e :: rest).map Value.vStr)))
      = Value.vList ((e :: rest).map Value.vStr)
    unfold splitStrip
    rw [hjoined]
    rw [show (⟨joinChars [',', ' '] ((e :: rest).map String.toList)⟩ : String).toList
      = joinChars [',', ' '] ((e :: rest).map String.toList) from rfl]
    rw [splitComma_join_trim ((e :: rest).map String.toList)
      (by
        intro x hx
        obtain ⟨s, hs, rfl⟩ := List.mem_map.mp hx
        obtain ⟨hne', htrim', hcf'⟩ := helems s hs
        refine ⟨?_, congrArg String.data htrim', hcf'⟩
        intro hcontra
        apply hne'
        have hs' : s = ⟨s.toList⟩ := rfl
        rw [hs', hcontra])]
    rw [List.map_map]
    rfl

/-- A non-blank row contributes one record built field by field. -/
theorem parse_dataframe_cons_keep (cols : List String) (row : List Cell)
    (rows : List (List Cell)) (schema : Schema) (h : rowBlank row = false) :
    parse_dataframe ⟨cols, row :: rows⟩ schema
      = (schema.map fun f => (f.name, coerceField f.type (rowGet cols row f.name)))
        :: parse_dataframe ⟨cols, rows⟩ schema := by
  unfold parse_dataframe
  simp [List.filter_cons, h]

/-- C1 (amended): for a schema with one field of each of the four types
(arbitrary distinct names, required flags and widgets) and a record with
an empty-or-non-blank string, an int or float number, a bool, and a list
of element strings that are non-empty, comma-free *and carry no
leading/trailing whitespace*, projecting to the table and reconstructing
yields exactly the record with whole floats narrowed to integers; in
particular `{"tags": ["a","b","c"]}` under a list-typed `tags` field
round-trips exactly.  (Without the trimmed-elements condition the
round trip fails, see the counterexample.) -/
theorem claim_C1 :
    (∀ (ns nn nb nl : String) (r₁ r₂ r₃ r₄ : Bool) (w₁ w₂ w₃ w₄ : Option String)
      (hd₁ : ns ≠ nn) (hd₂ : ns ≠ nb) (hd₃ : ns ≠ nl)
      (hd₄ : nn ≠ nb) (hd₅ : nn ≠ nl) (hd₆ : nb ≠ nl)
      (sv : String) (hsv : sv = "" ∨ strBlank sv = false)
      (nv : Value) (hnv : (∃ n : Int, nv = .vInt n) ∨ ∃ q : ℚ, nv = .vFloat q)
      (bv : Bool) (elems : List String)
      (helems : ∀ e ∈ elems, e ≠ "" ∧ pyStrip e = e ∧ ∀ c ∈ e.toList, c ≠ ','),
      toRecords
        (toTable
          [[(ns, .vStr sv), (nn, nv), (nb, .vBool bv), (nl, .vList (elems.map .vStr))]]
          [⟨ns, "string", r₁, w₁⟩, ⟨nn, "number", r₂, w₂⟩,
           ⟨nb, "boolean", r₃, w₃⟩, ⟨nl, "list", r₄, w₄⟩])
        [⟨ns, "string", r₁, w₁⟩, ⟨nn, "number", r₂, w₂⟩,
         ⟨nb, "boolean", r₃, w₃⟩, ⟨nl, "list", r₄, w₄⟩]
      = [[(ns, .vStr sv), (nn, numNarrow nv), (nb, .vBool bv),
          (nl, .vList (elems.map .vStr))]]) ∧
    toRecords
      (toTable [[("tags", .vList [.vStr "a", .vStr "b", .vStr "c"])]]
        [⟨"tags", "list", false, none⟩])
      [⟨"tags", "list", false, none⟩]
      = [[("tags", .vList [.vStr "a", .vStr "b", .vStr "c"])]] := by
  refine ⟨?_, rfl⟩
  intro ns nn nb nl r₁ r₂ r₃ r₄ w₁ w₂ w₃ w₄ hd₁ hd₂ hd₃ hd₄ hd₅ hd₆
    sv hsv nv hnv bv elems helems
  -- the shapes of the intermediate data
  have hs1 : ([⟨ns, "string", r₁, w₁⟩, ⟨nn, "number", r₂, w₂⟩,
      ⟨nb, "boolean", r₃, w₃⟩, ⟨nl, "list", r₄, w₄⟩] : Schema).map
      (fun f => (f.name, f.type))
      = [(ns, "string"), (nn, "number"), (nb, "boolean"), (nl, "list")] := rfl
  have hl1 : lookupA ns [(ns, "string"), (nn, "number"), (nb, "boolean"), (nl, "list")]
      = some "string" := by
    rw [lookupA_cons, if_pos rfl]
  have hl2 : lookupA nn [(ns, "string"), (nn, "number"), (nb, "boolean"), (nl, "list")]
      = some "number" := by
    rw [lookupA_cons, if_neg hd₁, lookupA_cons, if_pos rfl]
  have hl3 : lookupA nb [(ns, "string"), (nn, "number"), (nb, "boolean"), (nl, "list")]
      = some "boolean" := by
    rw [lookupA_cons, if_neg hd₂, lookupA_cons, if_neg hd₄, lookupA_cons, if_pos rfl]
  have hl4 : lookupA nl [(ns, "string"), (nn, "number"), (nb, "boolean"), (nl, "list")]
      = some "list" := by
    rw [lookupA_cons, if_neg hd₃, lookupA_cons, if_neg hd₅, lookupA_cons,
      if_neg hd₆, lookupA_cons, if_pos rfl]
  -- stage 1: the per-record projection
  have hconv : convert_for_dataframe
      [[(ns, .vStr sv), (nn, nv), (nb, .vBool bv), (nl, .vList (elems.map .vStr))]]
      [⟨ns, "string", r₁, w₁⟩, ⟨nn, "number", r₂, w₂⟩,
       ⟨nb, "boolean", r₃, w₃⟩, ⟨nl, "list", r₄, w₄⟩]
      = [[(ns, .vStr sv), (nn, nv), (nb, .vBool bv),
          (nl, .vStr (joinCS (elems.map .vStr)))]] := by
    rw [convert_for_dataframe_eq]
    simp only [List.map_cons, List.map_nil]
    rw [hl1, hl2, hl3, hl4]
    rw [if_neg (by simp), if_neg (by simp), if_neg (by simp), if_pos rfl]
  -- stage 2: the DataFrame columns
  have hcols : dfColumns [[(ns, .vStr sv), (nn, nv), (nb, .vBool bv),
      (nl, .vStr (joinCS (elems.map .vStr)))]] = [ns, nn, nb, nl] := by
    unfold dfColumns
    simp [Ne.symm hd₁, Ne.symm hd₂, Ne.symm hd₃, Ne.symm hd₄, Ne.symm hd₅,
      Ne.symm hd₆]
  -- stage 3: the single row
  have hr1 : lookupA ns [(ns, Value.vStr sv), (nn, nv), (nb, Value.vBool bv),
      (nl, Value.vStr (joinCS (elems.map Value.vStr)))] = some (.vStr sv) := by
    rw [lookupA_cons, if_pos rfl]
  have hr2 : lookupA nn [(ns, Value.vStr sv), (nn, nv), (nb, Value.vBool bv),
      (nl, Value.vStr (joinCS (elems.map Value.vStr)))] = some nv := by
    rw [lookupA_cons, if_neg hd₁, lookupA_cons, if_pos rfl]
  have hr3 : lookupA nb [(ns, Value.vStr sv), (nn, nv), (nb, Value.vBool bv),
      (nl, Value.vStr (joinCS (elems.map Value.vStr)))] = some (.vBool bv) := by
    rw [lookupA_cons, if_neg hd₂, lookupA_cons, if_neg hd₄, lookupA_cons, if_pos rfl]
  have hr4 : lookupA nl [(ns, Value.vStr sv), (nn, nv), (nb, Value.vBool bv),
      (nl, Value.vStr (joinCS (elems.map Value.vStr)))]
      = some (.vStr (joinCS (elems.map Value.vStr))) := by
    rw [lookupA_cons, if_neg hd₃, lookupA_cons, if_neg hd₅, lookupA_cons,
      if_neg hd₆, lookupA_cons, if_pos rfl]
  have hmk : mkDataFrame [[(ns, .vStr sv), (nn, nv), (nb, .vBool bv),
      (nl, .vStr (joinCS (elems.map .vStr)))]]
      = ⟨[ns, nn, nb, nl],
         [[some (.vStr sv), some nv, some (.vBool bv),
           some (.vStr (joinCS (elems.map .vStr)))]]⟩ := by
    rw [show mkDataFrame [[(ns, .vStr sv), (nn, nv), (nb, .vBool bv),
        (nl, .vStr (joinCS (elems.map .vStr)))]]
      = ⟨(mkDataFrame [[(ns, .vStr sv), (nn, nv), (nb, .vBool bv),
          (nl, .vStr (joinCS (elems.map .vStr)))]]).cols,
         (mkDataFrame [[(ns, .vStr sv), (nn, nv), (nb, .vBool bv),
          (nl, .vStr (joinCS (elems.map .vStr)))]]).rows⟩ from rfl]
    rw [mkDataFrame_cols, mkDataFrame_rows, hcols]
    simp only [List.map_cons, List.map_nil]
    rw [hr1, hr2, hr3, hr4]
  -- stage 4: the schema-column sync changes nothing
  have hsync : syncColumns
      (⟨[ns, nn, nb, nl],
        [[some (.vStr sv), some nv, some (.vBool bv),
          some (.vStr (joinCS (elems.map .vStr)))]]⟩ : Table)
      [⟨ns, "string", r₁, w₁⟩, ⟨nn, "number", r₂, w₂⟩,
       ⟨nb, "boolean", r₃, w₃⟩, ⟨nl, "list", r₄, w₄⟩]
      = ⟨[ns, nn, nb, nl],
         [[some (.vStr sv), some nv, some (.vBool bv),
           some (.vStr (joinCS (elems.map .vStr)))]]⟩ := by
    rw [syncColumns_cons, if_pos (by simp), syncColumns_cons, if_pos (by simp),
      syncColumns_cons, if_pos (by simp), syncColumns_cons, if_pos (by simp),
      syncColumns_nil]
  -- the projected table
  have htab : toTable
      [[(ns, .vStr sv), (nn, nv), (nb, .vBool bv), (nl, .vList (elems.map .vStr))]]
      [⟨ns, "string", r₁, w₁⟩, ⟨nn, "number", r₂, w₂⟩,
       ⟨nb, "boolean", r₃, w₃⟩, ⟨nl, "list", r₄, w₄⟩]
      = ⟨[ns, nn, nb, nl],
         [[some (.vStr sv), some nv, some (.vBool bv),
           some (.vStr (joinCS (elems.map .vStr)))]]⟩ := by
    unfold toTable
    rw [hconv, hmk, hsync]
  rw [htab]
  -- stage 5: reconstruction
  have hblank : rowBlank [some (.vStr sv), some nv, some (.vBool bv),
      some (.vStr (joinCS (elems.map .vStr)))] = false := by
    unfold rowBlank
    simp only [List.all_cons, List.all_nil]
    rw [show cellIsNa (some (Value.vStr sv)) = false from rfl,
      strBlank_cellStr_vBool bv]
    simp
  have hg1 : rowGet [ns, nn, nb, nl] [some (.vStr sv), some nv, some (.vBool bv),
      some (.vStr (joinCS (elems.map .vStr)))] ns = some (.vStr sv) := by
    unfold rowGet
    rw [findIdxA_cons, if_pos (by simp)]
    rfl
  have hg2 : rowGet [ns, nn, nb, nl] [some (.vStr sv), some nv, some (.vBool bv),
      some (.vStr (joinCS (elems.map .vStr)))] nn = some nv := by
    unfold rowGet
    rw [findIdxA_cons, if_neg (by simp [hd₁]), findIdxA_cons, if_pos (by simp)]
    rfl
  have hg3 : rowGet [ns, nn, nb, nl] [some (.vStr sv), some nv, some (.vBool bv),
      some (.vStr (joinCS (elems.map .vStr)))] nb = some (.vBool bv) := by
    unfold rowGet
    rw [findIdxA_cons, if_neg (by simp [hd₂]), findIdxA_cons, if_neg (by simp [hd₄]),
      findIdxA_cons, if_pos (by simp)]
    rfl
  have hg4 : rowGet [ns, nn, nb, nl] [some (.vStr sv), some nv, some (.vBool bv),
      some (.vStr (joinCS (elems.map .vStr)))] nl
      = some (.vStr (joinCS (elems.map .vStr))) := by
    unfold rowGet
    rw [findIdxA_cons, if_neg (by simp [hd₃]), findIdxA_cons, if_neg (by simp [hd₅]),
      findIdxA_cons, if_neg (by simp [hd₆]), findIdxA_cons, if_pos (by simp)]
    rfl
  show parse_dataframe _ _ = _
  rw [parse_dataframe_cons_keep _ _ _ _ hblank]
  rw [show parse_dataframe (⟨[ns, nn, nb, nl], []⟩ : Table)
      [⟨ns, "string", r₁, w₁⟩, ⟨nn, "number", r₂, w₂⟩,
       ⟨nb, "boolean", r₃, w₃⟩, ⟨nl, "list", r₄, w₄⟩] = [] from rfl]
  simp only [List.map_cons, List.map_nil]
  rw [hg1, hg2, hg3, hg4]
  rw [coerceField_string_id sv hsv, coerceField_num_narrow nv hnv,
    coerceField_bool_id bv, coerceField_list_id elems helems]

/-- Counterexample to C1 as stated: the list element `"a "` is non-empty
and comma-free, yet the round trip returns `"a"` — the reconstruction
trims each piece, so elements with leading/trailing whitespace do not
survive. -/
theorem claim_C1_cex :
    toRecords (toTable
        [[("s", .vStr "x"), ("n", .vInt 1), ("b", .vBool true),
          ("l", .vList [.vStr "a "])]]
        [⟨"s", "string", true, none⟩, ⟨"n", "number", false, none⟩,
         ⟨"b", "boolean", false, none⟩, ⟨"l", "list", false, none⟩])
      [⟨"s", "string", true, none⟩, ⟨"n", "number", false, none⟩,
       ⟨"b", "boolean", false, none⟩, ⟨"l", "list", false, none⟩]
      = [[("s", .vStr "x"), ("n", .vInt 1), ("b", .vBool true),
          ("l", .vList [.vStr "a"])]] ∧
    toRecords (toTable
        [[("s", .vStr "x"), ("n", .vInt 1), ("b", .vBool true),
          ("l", .vList [.vStr "a "])]]
        [⟨"s", "string", true, none⟩, ⟨"n", "number", false, none⟩,
         ⟨"b", "boolean", false, none⟩, ⟨"l", "list", false, none⟩])
      [⟨"s", "string", true, none⟩, ⟨"n", "number", false, none⟩,
       ⟨"b", "boolean", false, none⟩, ⟨"l", "list", false, none⟩]
      ≠ [[("s", .vStr "x"), ("n", .vInt 1), ("b", .vBool true),
          ("l", .vList [.vStr "a "])]] := by
  refine ⟨rfl, ?_⟩
  intro hcontra
  rw [show toRecords (toTable
        [[("s", .vStr "x"), ("n", .vInt 1), ("b", .vBool true),
          ("l", .vList [.vStr "a "])]]
        [⟨"s", "string", true, none⟩, ⟨"n", "number", false, none⟩,
         ⟨"b", "boolean", false, none⟩, ⟨"l", "list", false, none⟩])
      [⟨"s", "string", true, none⟩, ⟨"n", "number", false, none⟩,
       ⟨"b", "boolean", false, none⟩, ⟨"l", "list", false, none⟩]
      = [[("s", .vStr "x"), ("n", .vInt 1), ("b", .vBool true),
          ("l", .vList [.vStr "a"])]] from rfl] at hcontra
  simp at hcontra

/-- Witness for C1: a representative record (string, whole float, bool,
clean list) round-trips with the float narrowed to an integer. -/
theorem claim_C1_witness :
    toRecords (toTable
        [[("s", .vStr "hi"), ("n", .vFloat ((3 : ℤ) : ℚ)), ("b", .vBool true),
          ("l", .vList [.vStr "a", .vStr "b"])]]
        [⟨"s", "string", true, none⟩, ⟨"n", "number", false, none⟩,
         ⟨"b", "boolean", false, none⟩, ⟨"l", "list", false, none⟩])
      [⟨"s", "string", true, none⟩, ⟨"n", "number", false, none⟩,
       ⟨"b", "boolean", false, none⟩, ⟨"l", "list", false, none⟩]
      = [[("s", .vStr "hi"), ("n", .vInt 3), ("b", .vBool true),
          ("l", .vList [.vStr "a", .vStr "b"])]] := by
  have h := claim_C1.1 "s" "n" "b" "l" true false false false none none none none
    (by decide) (by decide) (by decide) (by decide) (by decide) (by decide)
    "hi" (Or.inr (by decide))
    (.vFloat ((3 : ℤ) : ℚ)) (Or.inr ⟨((3 : ℤ) : ℚ), rfl⟩)
    true ["a", "b"] (by decide)
  simp only [List.map_cons, List.map_nil] at h
  rw [h]
  rw [show numNarrow (Value.vFloat ((3 : ℤ) : ℚ))
      = if ((3 : ℤ) : ℚ) = (pyTruncQ ((3 : ℤ) : ℚ) : ℚ) then
          Value.vInt (pyTruncQ ((3 : ℤ) : ℚ)) else Value.vFloat ((3 : ℤ) : ℚ)
      from rfl,
    pyTruncQ_intCast, if_pos rfl]

end JsonEditor
